import Mathlib

/-!
# Verification of the `abi-toolkit` Ethereum ABI codec

Shallow embedding of the JavaScript sources (`encoder.js`, `decoder.js`,
`utils.js`, `abi-codec.js`, `crypto-utils.js`) of the `abi-toolkit`
repository.  Byte buffers (Node `Buffer`) are modelled as `List Nat`
(each entry a byte value), JS strings as Lean `String`, JS `Map` objects
as association lists with overwrite-on-set semantics, and exceptions as
`Except String`.  Arbitrary precision `BigInt` arithmetic is modelled by
`Nat` / `Int`.  Decoder/encoder instance caches (`this.cache`) are
threaded explicitly: every cached operation takes the cache and returns
the possibly-extended cache next to its `Except` result, so that cache
writes performed before a thrown exception persist, exactly as mutation
does in the source.
-/

set_option maxRecDepth 1000000

namespace AbiToolkit

/-! ## Byte and hex utilities (modelling `utils.js` and Node `Buffer`) -/

/-- Big-endian interpretation of a byte list (`BigInt('0x' + hex)` on the
hex rendering of a buffer; the empty list yields 0). -/
def beNat (l : List Nat) : Nat :=
  l.foldl (fun a b => a * 256 + b) 0

/-- `buffer.slice(a, b)` of Node: clamps to the buffer bounds and never
fails, returning a (possibly shorter or empty) byte list. -/
def sliceBuf (buf : List Nat) (a b : Nat) : List Nat :=
  (buf.drop a).take (b - a)

/-- The 32-byte word of a buffer starting at byte `k`, read big-endian
(shorter when the buffer ends early, matching `slice` clamping). -/
def wordAt (buf : List Nat) (k : Nat) : Nat :=
  beNat (sliceBuf buf k (k + 32))

/-- Big-endian bytes of `n`, left-padded with zeros to `w` bytes
(models `bigIntValue.toString(16).padStart(2*w, '0')` then
`Buffer.from(hex, 'hex')` for values fitting in `w` bytes). -/
def natToBeBytes (n w : Nat) : List Nat :=
  match w with
  | 0 => []
  | w' + 1 => natToBeBytes (n / 256) w' ++ [n % 256]

/-- Lowercase hex digit for a value `< 16`. -/
def hexDigitChar (n : Nat) : Char :=
  if n < 10 then Char.ofNat (48 + n) else Char.ofNat (87 + n)

/-- Two lowercase hex chars of one byte (`buffer.toString('hex')`). -/
def byteHexChars (b : Nat) : List Char :=
  [hexDigitChar (b / 16 % 16), hexDigitChar (b % 16)]

/-- `buffer.toString('hex')` : lowercase hex, two chars per byte. -/
def bytesToHexStr (l : List Nat) : String :=
  String.mk (l.foldr (fun b acc => byteHexChars b ++ acc) [])

/-- `bufferToHex` of `utils.js`: `'0x' + buffer.toString('hex')`. -/
def bufferToHex (l : List Nat) : String :=
  "0x" ++ bytesToHexStr l

/-- Value of one hex character, `none` when not a hex digit. -/
def hexCharVal (c : Char) : Option Nat :=
  if '0' ≤ c ∧ c ≤ '9' then some (c.toNat - 48)
  else if 'a' ≤ c ∧ c ≤ 'f' then some (c.toNat - 87)
  else if 'A' ≤ c ∧ c ≤ 'F' then some (c.toNat - 55)
  else none

/-- `Buffer.from(hex, 'hex')`: consumes hex chars in pairs; a trailing
odd nibble is dropped (inputs here are pre-validated as hex). -/
def hexPairsToBytes : List Char → List Nat
  | c1 :: c2 :: rest =>
    (((hexCharVal c1).getD 0) * 16 + ((hexCharVal c2).getD 0)) :: hexPairsToBytes rest
  | _ => []

/-- `s.startsWith(pre)`, computed on the character lists (kernel-reducible). -/
def startsWithS (s pre : String) : Bool :=
  pre.toList.isPrefixOf s.toList

/-- `s.includes(c)` for a single character. -/
def containsCharS (s : String) (c : Char) : Bool :=
  s.toList.contains c

/-- Strip a leading `0x` if present (`if (hex.startsWith('0x')) hex = hex.slice(2)`). -/
def strip0x (s : String) : String :=
  if startsWithS s "0x" then String.mk (s.toList.drop 2) else s

/-- `hexToBuffer` of `utils.js`: strip `0x`, validate the charset with
`/^[0-9a-fA-F]*$/`, then `Buffer.from(hex, 'hex')`. -/
def hexToBuffer (s : String) : Except String (List Nat) :=
  let hex := strip0x s
  if hex.toList.all (fun c => (hexCharVal c).isSome) then
    Except.ok (hexPairsToBytes hex.toList)
  else
    Except.error "Invalid hex string: contains non-hex characters"

/-- `isHex` of `utils.js`: `/^0x[0-9a-fA-F]*$/.test(str)`. -/
def isHex (s : String) : Bool :=
  startsWithS s "0x" && (s.toList.drop 2).all (fun c => (hexCharVal c).isSome)

/-- `padLeft(buffer, length = 32)`: zero bytes on the left; buffers
already at least `len` long are returned unchanged. -/
def padLeft (buf : List Nat) (len : Nat) : List Nat :=
  if len ≤ buf.length then buf else List.replicate (len - buf.length) 0 ++ buf

/-- `padRight(buffer, length = 32)`: zero bytes on the right; buffers
already at least `len` long are returned unchanged. -/
def padRight (buf : List Nat) (len : Nat) : List Nat :=
  if len ≤ buf.length then buf else buf ++ List.replicate (len - buf.length) 0

/-- Leading-decimal-digits parse, modelling JS `parseInt` on our inputs:
`none` when the string does not start with a digit (JS `NaN`). -/
def parseIntJS (s : String) : Option Nat :=
  let digits := s.toList.takeWhile Char.isDigit
  if digits.isEmpty then none
  else some (digits.foldl (fun a c => a * 10 + (c.toNat - 48)) 0)

/-- `Number(decimalString)` on the canonical decimal strings produced by
the decoder (exact for values below 2^53, which covers every offset and
length arising here). -/
def decToNat (s : String) : Nat :=
  (parseIntJS s).getD 0

/-- Decimal-or-hex string to integer, the string branch of `toBigInt`:
`BigInt(value)` accepts `0x`-hex, decimal, and an optional leading minus. -/
def strToBigInt (s : String) : Except String Int :=
  if startsWithS s "0x" then
    match hexToBuffer s with
    | Except.ok bytes =>
      if (strip0x s).length % 2 = 0 then Except.ok (Int.ofNat (beNat bytes))
      else Except.ok (Int.ofNat (beNat (hexPairsToBytes ('0' :: (strip0x s).toList))))
    | Except.error _ => Except.error s!"Cannot convert to BigInt: {s}"
  else if startsWithS s "-" ∧ (s.toList.drop 1).all Char.isDigit ∧ s.length > 1 then
    Except.ok (-(Int.ofNat ((s.toList.drop 1).foldl (fun a c => a * 10 + (c.toNat - 48)) 0)))
  else if s.toList.all Char.isDigit then
    Except.ok (Int.ofNat (s.toList.foldl (fun a c => a * 10 + (c.toNat - 48)) 0))
  else Except.error s!"Cannot convert to BigInt: {s}"

/-! ## Keccak-256

`crypto-utils.js` delegates to the external `js-sha3` package's
`keccak_256`; the spec treats the hash as an opaque
`keccak256(bytes) -> 32 bytes` primitive.  We model it by the standard
Keccak-256 function (capacity 512, rate 1088, multi-rate `0x01 … 0x80`
padding) which is what `js-sha3` computes, over `Nat` lanes masked to
64 bits. -/

def MASK64 : Nat := 18446744073709551615

/-- 64-bit left rotation. -/
def rotl64 (x n : Nat) : Nat :=
  ((x <<< n) ||| (x >>> (64 - n))) &&& MASK64

/-- The 24 Keccak-f[1600] round constants (decimal). -/
def keccakRC : List Nat :=
  [1, 32898, 9223372036854808714,
   9223372039002292224, 32907, 2147483649,
   9223372039002292353, 9223372036854808585, 138,
   136, 2147516425, 2147483658,
   2147516555, 9223372036854775947, 9223372036854808713,
   9223372036854808579, 9223372036854808578, 9223372036854775936,
   32778, 9223372039002259466, 9223372039002292353,
   9223372036854808704, 2147483649, 9223372039002292232]

/-- The ρ rotation offsets, stored column-major: entry `y + 5*x` is the
rotation for lane `(x, y)`. -/
def keccakRotT : List Nat :=
  [0, 36, 3, 41, 18,
   1, 44, 10, 45, 2,
   62, 6, 43, 15, 61,
   28, 55, 25, 21, 56,
   27, 20, 39, 8, 14]

/-- Rotation offset of lane `(x, y)` (`x + 5*y` indexing). -/
def keccakRot (i : Nat) : Nat :=
  keccakRotT.getD (i / 5 + 5 * (i % 5)) 0

/-- Lane `(x, y)` of a 25-lane state. -/
def lane (s : List Nat) (x y : Nat) : Nat :=
  s.getD (x + 5 * y) 0

/-- One Keccak-f round: θ, ρ, π, χ, then ι with round constant `rc`. -/
def keccakRound (s : List Nat) (rc : Nat) : List Nat :=
  let c := (List.range 5).map (fun x =>
    lane s x 0 ^^^ lane s x 1 ^^^ lane s x 2 ^^^ lane s x 3 ^^^ lane s x 4)
  let d := (List.range 5).map (fun x =>
    (c.getD ((x + 4) % 5) 0) ^^^ rotl64 (c.getD ((x + 1) % 5) 0) 1)
  let sθ := (List.range 25).map (fun i => s.getD i 0 ^^^ d.getD (i % 5) 0)
  let b := (List.range 25).map (fun i =>
    let xB := i % 5
    let yB := i / 5
    -- B[y, (2x + 3y) % 5] = rot(A[x, y], r[x, y]); inverting for the
    -- destination (xB, yB): y = xB and x = (xB + 3 * yB) % 5.
    let x := (xB + 3 * yB) % 5
    let y := xB
    rotl64 (lane sθ x y) (keccakRot (x + 5 * y)))
  let sχ := (List.range 25).map (fun i =>
    let x := i % 5
    let y := i / 5
    (b.getD (x + 5 * y) 0) ^^^
      (((b.getD ((x + 1) % 5 + 5 * y) 0) ^^^ MASK64) &&& (b.getD ((x + 2) % 5 + 5 * y) 0)))
  match sχ with
  | a0 :: rest => (a0 ^^^ rc) :: rest
  | [] => []

/-- The full Keccak-f[1600] permutation: 24 rounds. -/
def keccakF (s : List Nat) : List Nat :=
  keccakRC.foldl keccakRound s

/-- Little-endian lane value of (up to) 8 bytes. -/
def bytesToLaneLE (l : List Nat) : Nat :=
  l.foldr (fun b a => a * 256 + b) 0

/-- The 8 little-endian bytes of a 64-bit lane. -/
def laneToBytesLE (n : Nat) : List Nat :=
  [n % 256, n / 256 % 256, n / 65536 % 256, n / 16777216 % 256,
   n / 4294967296 % 256, n / 1099511627776 % 256,
   n / 281474976710656 % 256, n / 72057594037927936 % 256]

/-- Multi-rate padding `0x01 … 0x80` to a multiple of 136 bytes. -/
def keccakPad (msg : List Nat) : List Nat :=
  let q := 136 - msg.length % 136
  if q = 1 then msg ++ [0x81]
  else msg ++ [0x01] ++ List.replicate (q - 2) 0 ++ [0x80]

/-- XOR one 136-byte block into the first 17 lanes of the state. -/
def xorBlock (s : List Nat) (block : List Nat) : List Nat :=
  (List.range 25).map (fun i =>
    if i < 17 then s.getD i 0 ^^^ bytesToLaneLE (sliceBuf block (8 * i) (8 * i + 8))
    else s.getD i 0)

/-- Absorb a padded message block by block (`fuel` bounds the number of
blocks; the wrapper passes the message length, which always suffices). -/
def keccakAbsorbAux : Nat → List Nat → List Nat → List Nat
  | 0, s, _ => s
  | fuel + 1, s, msg =>
    if msg.isEmpty then s
    else keccakAbsorbAux fuel (keccakF (xorBlock s (msg.take 136))) (msg.drop 136)

def keccakAbsorb (s : List Nat) (msg : List Nat) : List Nat :=
  keccakAbsorbAux msg.length s msg

/-- Keccak-256 of a byte list: 32-byte digest. -/
def keccak256Bytes (msg : List Nat) : List Nat :=
  let s := keccakAbsorb (List.replicate 25 0) (keccakPad msg)
  laneToBytesLE (s.getD 0 0) ++ laneToBytesLE (s.getD 1 0) ++
  laneToBytesLE (s.getD 2 0) ++ laneToBytesLE (s.getD 3 0)

/-- `toUtf8Bytes` of `crypto-utils.js` (`TextEncoder().encode`): UTF-8
bytes of a string. -/
def utf8Encode (s : String) : List Nat :=
  s.toList.foldr (fun c acc =>
    let n := c.toNat
    (if n < 0x80 then [n]
     else if n < 0x800 then [0xc0 + n / 64, 0x80 + n % 64]
     else if n < 0x10000 then [0xe0 + n / 4096, 0x80 + n / 64 % 64, 0x80 + n % 64]
     else [0xf0 + n / 262144, 0x80 + n / 4096 % 64, 0x80 + n / 64 % 64, 0x80 + n % 64])
    ++ acc) []

/-- `keccak256` of `crypto-utils.js` on byte input: `'0x' + keccak_256(bytes)`. -/
def keccak256 (bytes : List Nat) : String :=
  "0x" ++ bytesToHexStr (keccak256Bytes bytes)

/-! ## JS values

Encoder inputs are host JavaScript values: strings, numbers, booleans,
arrays, and Node `Buffer`s. -/

inductive JVal where
  | s (v : String)
  | n (v : Nat)
  | b (v : Bool)
  | arr (vs : List JVal)
  | buf (bytes : List Nat)

/-- JS `typeof`. -/
def jsTypeof : JVal → String
  | .s _ => "string"
  | .n _ => "number"
  | .b _ => "boolean"
  | .arr _ => "object"
  | .buf _ => "object"

/-- JS truthiness of a value. -/
def jsTruthy : JVal → Bool
  | .s v => v ≠ ""
  | .n v => v ≠ 0
  | .b v => v
  | .arr _ => true
  | .buf _ => true

/-- Join strings with a separator (`Array.prototype.join`). -/
def joinSep (sep : String) : List String → String
  | [] => ""
  | [x] => x
  | x :: rest => x ++ sep ++ joinSep sep rest

/-- Minimal JSON string escaping (quote and backslash; the values cached
here never contain control characters). -/
def jsonEscape (s : String) : String :=
  String.mk (s.toList.foldr (fun c acc =>
    if c = '"' then '\\' :: '"' :: acc
    else if c = '\\' then '\\' :: '\\' :: acc
    else c :: acc) [])

mutual

/-- `JSON.stringify` on the JS values the encoder caches. -/
def jsonStringify : JVal → String
  | .s v => "\"" ++ jsonEscape v ++ "\""
  | .n v => toString v
  | .b v => if v then "true" else "false"
  | .arr vs => "[" ++ jsonStringifyList vs ++ "]"
  | .buf bs => "\x7b\"type\":\"Buffer\",\"data\":[" ++ joinSep "," (bs.map toString) ++ "]\x7d"

def jsonStringifyList : List JVal → String
  | [] => ""
  | [v] => jsonStringify v
  | v :: rest => jsonStringify v ++ "," ++ jsonStringifyList rest

end

/-- A value interpolated into a JS template literal (`${value}`). -/
def jsDisplay : JVal → String
  | .s v => v
  | .n v => toString v
  | .b v => if v then "true" else "false"
  | .arr vs => joinSep "," (vs.map (fun v => match v with
      | .s x => x
      | .n x => toString x
      | .b x => if x then "true" else "false"
      | _ => "[object]"))
  | .buf _ => "[Buffer]"

/-- `toBigInt` of `utils.js`: bigint/string/number accepted, everything
else throws. -/
def toBigInt : JVal → Except String Int
  | .s v => strToBigInt v
  | .n v => Except.ok (Int.ofNat v)
  | v => Except.error s!"Cannot convert to BigInt: {jsDisplay v}"

/-! ## Parameter descriptors and ABI entries -/

/-- An ABI parameter descriptor (`{ name, type, indexed, components }`).
`components` is present only for tuple (or tuple-array) parameters. -/
inductive Param where
  | mk (name : String) (type : String) (indexed : Bool)
       (components : Option (List Param))

def Param.name : Param → String
  | .mk n _ _ _ => n

def Param.type : Param → String
  | .mk _ t _ _ => t

def Param.indexed : Param → Bool
  | .mk _ _ i _ => i

def Param.components : Param → Option (List Param)
  | .mk _ _ _ c => c

/-- A type argument as passed around the source: either a bare type
string or an ABI parameter object. -/
inductive TypeDesc where
  | str (s : String)
  | param (p : Param)

/-- `typeof type === 'string' ? type : type.type`. -/
def TypeDesc.typeStr : TypeDesc → String
  | .str s => s
  | .param p => p.type

/-- The `components` of a type argument (`type.components`, absent for
plain strings). -/
def TypeDesc.components : TypeDesc → Option (List Param)
  | .str _ => none
  | .param p => p.components

/-- An ABI entry (function or event). The JSON field `type` is modelled
as `itemType` (`"function"` / `"event"` / …). -/
structure AbiItem where
  itemType : String
  name : String
  inputs : List Param
  outputs : List Param
  anonymous : Bool

/-! ## Signature and selector engine (`utils.js`)

The module-level `selectorCache`/`signatureCache`/`typeCache` maps are
memoization of the pure functions below keyed by the function name and
raw input type strings, which determine the results; they are modelled
by the pure functions themselves. -/

/-- The greedy `/^(.+)\[(\d*)\]$/` match: splits `base[digits]` at the
last `[`, requiring a nonempty base and only digits inside the final
brackets. Returns `(baseType, digits)`. -/
def arrayTypeMatch (s : String) : Option (String × String) :=
  let cs := s.toList
  match cs.getLast? with
  | some ']' =>
    let revBody := cs.dropLast.reverse
    let digitsRev := revBody.takeWhile Char.isDigit
    match revBody.drop digitsRev.length with
    | '[' :: pre =>
      if pre.isEmpty then none
      else some (String.mk pre.reverse, String.mk digitsRev.reverse)
    | _ => none
  | _ => none

/-- `getBaseCanonicalType` of `utils.js`. -/
def getBaseCanonicalType (type : String) : String :=
  if type = "tuple" then "tuple"
  else if type = "uint" then "uint256"
  else if type = "int" then "int256"
  else if type = "bytes" then "bytes"
  else type

/-- `getCanonicalType` of `utils.js`: canonicalize the base of a
single-suffix array type, otherwise the base type itself. (Memoized in
the source by `JSON.stringify(param)`, which determines `param.type`.) -/
def getCanonicalType (param : Param) : String :=
  if containsCharS param.type '[' then
    match arrayTypeMatch param.type with
    | some (baseType, _) =>
      getBaseCanonicalType baseType ++ String.mk (param.type.toList.drop baseType.length)
    | none => param.type
  else
    getBaseCanonicalType param.type

/-- `getFunctionSignature`: `name(c1,c2,…)` over canonical input types. -/
def getFunctionSignature (func : AbiItem) : String :=
  func.name ++ "(" ++ joinSep "," (func.inputs.map getCanonicalType) ++ ")"

/-- `getEventSignature`: identical shape to the function signature. -/
def getEventSignature (event : AbiItem) : String :=
  event.name ++ "(" ++ joinSep "," (event.inputs.map getCanonicalType) ++ ")"

/-- `getFunctionSelector`: `keccak256(signature).slice(0, 10)` — `0x`
plus the first 4 bytes as 8 hex chars. -/
def getFunctionSelector (func : AbiItem) : String :=
  String.mk ((keccak256 (utf8Encode (getFunctionSignature func))).toList.take 10)

/-- `getEventSelector`: the full 32-byte keccak hash of the signature. -/
def getEventSelector (event : AbiItem) : String :=
  keccak256 (utf8Encode (getEventSignature event))

/-! ## Encoder (`encoder.js`)

The `Encoder` instance cache (`this.cache`, a `Map` from
`` `${type}:${JSON.stringify(value)||value}` `` to the encoded buffer,
bounded at 1000 entries) is threaded explicitly.  `fuel` bounds the
recursion depth (the JS recursion is bounded by the type-string
structure); all theorems hold for every sufficiently large fuel. -/

/-- Overwrite-or-append assignment, the semantics of both `Map.set` and
JS object property assignment. -/
def mapSet {α : Type} : List (String × α) → String → α → List (String × α)
  | [], k, v => [(k, v)]
  | (k', v') :: rest, k, v =>
    if k' = k then (k, v) :: rest else (k', v') :: mapSet rest k v

/-- `s.includes('[]')`: some `[` immediately followed by `]`. -/
def hasDynBracketsAux : List Char → Bool
  | '[' :: ']' :: _ => true
  | _ :: rest => hasDynBracketsAux rest
  | [] => false

def hasDynBrackets (s : String) : Bool :=
  hasDynBracketsAux s.toList

/-- `/^uint(\d+)?$/` with `parseInt(match[1]) || 256`: whole-string
match, empty or zero width falling back to 256. -/
def uintMatch (s : String) : Option Nat :=
  if startsWithS s "uint" ∧ (s.toList.drop 4).all Char.isDigit then
    let d := s.toList.drop 4
    if d.isEmpty then some 256
    else
      let k := d.foldl (fun a c => a * 10 + (c.toNat - 48)) 0
      some (if k = 0 then 256 else k)
  else none

/-- `/^int(\d+)?$/` with the same `|| 256` fallback. -/
def intMatch (s : String) : Option Nat :=
  if startsWithS s "int" ∧ (s.toList.drop 3).all Char.isDigit then
    let d := s.toList.drop 3
    if d.isEmpty then some 256
    else
      let k := d.foldl (fun a c => a * 10 + (c.toNat - 48)) 0
      some (if k = 0 then 256 else k)
  else none

/-- `/^bytes(\d+)$/` (digits required; no fallback). -/
def bytesNMatch (s : String) : Option Nat :=
  if startsWithS s "bytes" ∧ (s.toList.drop 5).all Char.isDigit
      ∧ ¬ (s.toList.drop 5).isEmpty then
    some ((s.toList.drop 5).foldl (fun a c => a * 10 + (c.toNat - 48)) 0)
  else none

namespace Encoder

/-- `Encoder.isDynamicType`: string comparison heuristics of the source
(`tuple` types are unconditionally assumed dynamic here). -/
def isDynamicType (type : String) : Bool :=
  if type = "string" ∨ type = "bytes" then true
  else if hasDynBrackets type then true
  else if startsWithS type "tuple" then true
  else false

abbrev EncCache := List (String × List Nat)

/-- The encoder cache key
`` `${type}:${typeof value === 'object' ? JSON.stringify(value) : value}` ``. -/
def cacheKey (type : String) (value : JVal) : String :=
  type ++ ":" ++ (match value with
    | .arr _ => jsonStringify value
    | .buf _ => jsonStringify value
    | .s v => v
    | .n v => toString v
    | .b v => if v then "true" else "false")

/-- `encodeBool`: `padLeft(Buffer.from([value ? 1 : 0]))`. -/
def encodeBool (value : JVal) : List Nat :=
  padLeft [if jsTruthy value then 1 else 0] 32

/-- `encodeUint(value, bits = 256)`: convert, reject negatives and
overweight values, write 32 bytes big-endian. -/
def encodeUint (value : JVal) (bits : Nat) : Except String (List Nat) :=
  match toBigInt value with
  | .error e => .error e
  | .ok bigIntValue =>
    if bigIntValue < 0 then
      .error s!"Negative value for uint{bits}: {jsDisplay value}"
    else if bigIntValue > (2 : Int) ^ bits - 1 then
      .error s!"Value too large for uint{bits}: {jsDisplay value}"
    else
      .ok (natToBeBytes bigIntValue.toNat 32)

/-- `encodeInt(value, bits = 256)`: range check, two's complement modulo
`2^256` for negatives. -/
def encodeInt (value : JVal) (bits : Nat) : Except String (List Nat) :=
  match toBigInt value with
  | .error e => .error e
  | .ok bigIntValue =>
    if bigIntValue < -((2 : Int) ^ (bits - 1)) ∨ bigIntValue > (2 : Int) ^ (bits - 1) - 1 then
      .error s!"Value out of range for int{bits}: {jsDisplay value}"
    else if 0 ≤ bigIntValue then
      .ok (natToBeBytes bigIntValue.toNat 32)
    else
      .ok (natToBeBytes ((2 ^ 256 + bigIntValue).toNat) 32)

/-- `encodeAddress`: a `0x`-prefixed 42-char string, hex-decoded and
left-padded to 32 bytes. -/
def encodeAddress (value : JVal) : Except String (List Nat) :=
  match value with
  | .s v =>
    if startsWithS v "0x" ∧ v.length = 42 then
      match hexToBuffer v with
      | .ok addressBuffer => .ok (padLeft addressBuffer 32)
      | .error e => .error e
    else .error s!"Invalid address: {v}"
  | v => .error s!"Invalid address: {jsDisplay v}"

/-- The buffer extraction shared by `encodeFixedBytes`/`encodeBytes`:
hex strings are hex-decoded, other strings UTF-8 encoded, buffers taken
as-is. -/
def bytesValueToBuffer (value : JVal) : Except String (List Nat) :=
  match value with
  | .s v => if isHex v then hexToBuffer v else .ok (utf8Encode v)
  | .buf b => .ok b
  | v => .error s!"Invalid bytes value: {jsDisplay v}"

/-- `encodeFixedBytes(value, size)`: at most `size` bytes, right-padded
to 32. -/
def encodeFixedBytes (value : JVal) (size : Nat) : Except String (List Nat) :=
  match bytesValueToBuffer value with
  | .error e => .error e
  | .ok buffer =>
    if buffer.length > size then
      .error s!"Bytes too long for bytes{size}: {buffer.length} > {size}"
    else .ok (padRight buffer 32)

/-- `encodeBytes`: 32-byte length word, then the bytes right-padded to a
multiple of 32. -/
def encodeBytes (value : JVal) : Except String (List Nat) :=
  match bytesValueToBuffer value with
  | .error e => .error e
  | .ok buffer =>
    match encodeUint (.n buffer.length) 256 with
    | .error e => .error e
    | .ok length =>
      .ok (length ++ padRight buffer ((buffer.length + 31) / 32 * 32))

/-- `encodeString`: UTF-8 encode and delegate to `encodeBytes`. -/
def encodeString (value : JVal) : Except String (List Nat) :=
  match value with
  | .s v => encodeBytes (.buf (utf8Encode v))
  | v => .error s!"Expected string, got: {jsTypeof v}"

/-- `_encodeBasicType`: the switch over elementary types. -/
def encodeBasicType (type : String) (value : JVal) : Except String (List Nat) :=
  if type = "bool" then .ok (encodeBool value)
  else if type = "address" then encodeAddress value
  else if type = "bytes" then encodeBytes value
  else if type = "string" then encodeString value
  else match uintMatch type with
  | some bits => encodeUint value bits
  | none => match intMatch type with
    | some bits => encodeInt value bits
    | none => match bytesNMatch type with
      | some size => encodeFixedBytes value size
      | none => .error s!"Unsupported type: {type}"

/-- `encodeTuple`: `throw new Error('Tuple encoding not yet implemented')`. -/
def encodeTuple (_type : String) (_value : JVal) : Except String (List Nat) :=
  .error "Tuple encoding not yet implemented"

/-- The offset-head loop of `encodeArray` for dynamic element types:
`staticParts.push(encodeUint(offset)); offset += encoded.length`. -/
def dynHeads : List (List Nat) → Nat → Except String (List (List Nat))
  | [], _ => .ok []
  | e :: rest, off =>
    match encodeUint (.n off) 256 with
    | .error er => .error er
    | .ok w =>
      match dynHeads rest (off + e.length) with
      | .error er => .error er
      | .ok ws => .ok (w :: ws)

mutual

/-- `encodeParameter(type, value)`: cache lookup, dispatch on the type
string (`[` ⇒ array, `tuple` prefix ⇒ tuple, else basic), cache store
on success when below the 1000-entry bound. -/
def encodeParameter (fuel : Nat) (cache : EncCache) (type : String) (value : JVal) :
    Except String (List Nat) × EncCache :=
  match fuel with
  | 0 => (.error "fuel exhausted", cache)
  | fuel + 1 =>
    let key := cacheKey type value
    match List.lookup key cache with
    | some result => (.ok result, cache)
    | none =>
      let step :=
        if containsCharS type '[' then encodeArray fuel cache type value
        else if startsWithS type "tuple" then (encodeTuple type value, cache)
        else (encodeBasicType type value, cache)
      match step with
      | (.ok r, cache') =>
        (.ok r, if cache'.length < 1000 then mapSet cache' key r else cache')
      | (.error e, cache') => (.error e, cache')

/-- `encodeArray(type, values)`: parse `base[digits]` greedily, check
fixed lengths, encode all elements, then lay out either sequentially
(static base) or as offsets-then-tails (dynamic base), with a leading
length word for dynamic arrays. -/
def encodeArray (fuel : Nat) (cache : EncCache) (type : String) (values : JVal) :
    Except String (List Nat) × EncCache :=
  match fuel with
  | 0 => (.error "fuel exhausted", cache)
  | fuel + 1 =>
    match values with
    | .arr vs =>
      match arrayTypeMatch type with
      | none => (.error s!"Invalid array type: {type}", cache)
      | some (baseType, digits) =>
        let isFixedSize := digits ≠ ""
        let fixedSize := parseIntJS digits
        if isFixedSize ∧ vs.length ≠ fixedSize.getD 0 then
          (.error s!"Array length mismatch: expected {fixedSize.getD 0}, got {vs.length}", cache)
        else
          match encodeElems fuel cache baseType vs with
          | (.error e, c') => (.error e, c')
          | (.ok encodedElements, c') =>
            if isDynamicType baseType then
              match encodeUint (.n vs.length) 256 with
              | .error e => (.error e, c')
              | .ok lengthWord =>
                match dynHeads encodedElements (vs.length * 32) with
                | .error e => (.error e, c')
                | .ok staticParts =>
                  let pieces := (if isFixedSize then [] else [lengthWord])
                    ++ staticParts ++ encodedElements
                  (.ok pieces.flatten, c')
            else
              match encodeUint (.n vs.length) 256 with
              | .error e => (.error e, c')
              | .ok lengthWord =>
                let pieces := (if isFixedSize then [] else [lengthWord])
                  ++ encodedElements
                (.ok pieces.flatten, c')
    | v => (.error s!"Expected array for type {type}, got: {jsTypeof v}", cache)

/-- `values.map(value => this.encodeParameter(baseType, value))` with the
instance cache threaded left to right. -/
def encodeElems : Nat → EncCache → String →
    List JVal → Except String (List (List Nat)) × EncCache
  | _, cache, _, [] => (.ok [], cache)
  | 0, cache, _, _ :: _ => (.error "fuel exhausted", cache)
  | fuel + 1, cache, baseType, v :: vs =>
    match encodeParameter fuel cache baseType v with
    | (.error e, c') => (.error e, c')
    | (.ok b, c') =>
      match encodeElems fuel c' baseType vs with
      | (.error e, c'') => (.error e, c'')
      | (.ok bs, c'') => (.ok (b :: bs), c'')

end

/-- The head/tail loop of `encodeParameters`: heads left to right,
dynamic values replaced by a 32-byte offset word and appended to the
tail, `dynamicOffset` advanced by each dynamic encoding's length. -/
def encodeParamsLoop (fuel : Nat) (cache : EncCache) :
    List (TypeDesc × JVal) → Nat →
    Except String (List (List Nat) × List (List Nat)) × EncCache
  | [], _ => (.ok ([], []), cache)
  | (t, v) :: rest, dynamicOffset =>
    let typeStr := t.typeStr
    match encodeParameter fuel cache typeStr v with
    | (.error e, c') => (.error e, c')
    | (.ok encoded, c') =>
      if isDynamicType typeStr then
        match encodeUint (.n dynamicOffset) 256 with
        | .error e => (.error e, c')
        | .ok offsetWord =>
          match encodeParamsLoop fuel c' rest (dynamicOffset + encoded.length) with
          | (.error e, c'') => (.error e, c'')
          | (.ok (ss, ds), c'') => (.ok (offsetWord :: ss, encoded :: ds), c'')
      else
        match encodeParamsLoop fuel c' rest dynamicOffset with
        | (.error e, c'') => (.error e, c'')
        | (.ok (ss, ds), c'') => (.ok (encoded :: ss, ds), c'')

/-- `encodeParameters(types, values)`: arity check, head/tail layout
with the initial tail offset `types.length * 32`, hex-rendered result. -/
def encodeParameters (fuel : Nat) (cache : EncCache) (types : List TypeDesc)
    (values : List JVal) : Except String String × EncCache :=
  if types.length ≠ values.length then
    (.error s!"Type/value count mismatch: {types.length} types, {values.length} values",
     cache)
  else
    match encodeParamsLoop fuel cache (types.zip values) (types.length * 32) with
    | (.error e, c) => (.error e, c)
    | (.ok (staticParts, dynamicParts), c) =>
      (.ok (bufferToHex (staticParts ++ dynamicParts).flatten), c)

end Encoder

/-! ## Decoded values -/

/-- Host values produced by the decoder: integers as decimal strings,
addresses/bytes as `0x`-hex strings, booleans, arrays, tuples as
insertion-ordered field maps, and JS `null` (for empty input data). -/
inductive Val where
  | nullV
  | str (s : String)
  | boolV (b : Bool)
  | arr (vs : List Val)
  | obj (fields : List (String × Val))

/-! ## Decoder (`decoder.js`)

The `Decoder` instance cache maps
`` `${JSON.stringify(type)}:${offset}:${buffer.length}` `` to a decoded
`{value, nextOffset}` pair; `JSON.stringify` is injective on type
descriptors, so the key is modelled structurally as
`(TypeDesc, offset, buffer length)`.  Note that the key does *not*
depend on the buffer contents.  `fuel` bounds the recursion depth. -/

mutual

def paramBEq : Param → Param → Bool
  | .mk n1 t1 i1 c1, .mk n2 t2 i2 c2 =>
    n1 == n2 && t1 == t2 && i1 == i2 && optCompBEq c1 c2

def optCompBEq : Option (List Param) → Option (List Param) → Bool
  | none, none => true
  | some l1, some l2 => listParamBEq l1 l2
  | _, _ => false

def listParamBEq : List Param → List Param → Bool
  | [], [] => true
  | p :: r, q :: s => paramBEq p q && listParamBEq r s
  | _, _ => false

end

def typeDescBEq : TypeDesc → TypeDesc → Bool
  | .str a, .str b => a == b
  | .param p, .param q => paramBEq p q
  | _, _ => false

namespace Decoder

abbrev CacheKey := TypeDesc × Nat × Nat

def keyBEq (a b : CacheKey) : Bool :=
  typeDescBEq a.1 b.1 && a.2.1 == b.2.1 && a.2.2 == b.2.2

abbrev DecCache := List (CacheKey × (Val × Nat))

def cacheGet (cache : DecCache) (k : CacheKey) : Option (Val × Nat) :=
  (cache.find? (fun p => keyBEq p.1 k)).map (·.2)

def cacheSet : DecCache → CacheKey → (Val × Nat) → DecCache
  | [], k, v => [(k, v)]
  | (k', v') :: rest, k, v =>
    if keyBEq k' k then (k, v) :: rest else (k', v') :: cacheSet rest k v

/-- Node `buffer.readUInt32BE(offset)`: big-endian 4-byte read, throwing
(`ERR_OUT_OF_RANGE`) when fewer than 4 bytes remain. -/
def readUInt32BE (buf : List Nat) (off : Nat) : Except String Nat :=
  if off + 4 ≤ buf.length then .ok (beNat (sliceBuf buf off (off + 4)))
  else .error "offset is out of range"

/-- `decodeUint(buffer, offset, bits = 256)`: for `bits ≤ 64` two
bounds-checked 4-byte reads of bytes 24..32 of the word; otherwise the
clamped 32-byte slice via its hex rendering (`BigInt('0x'+hex)`, empty
slice ⇒ 0).  Range-checked against `2^bits - 1`, returned as a decimal
string with `nextOffset = offset + 32`. -/
def decodeUint (buf : List Nat) (offset : Nat) (bits : Nat) :
    Except String (String × Nat) :=
  let valueE : Except String Nat :=
    if bits ≤ 64 then
      match readUInt32BE buf (offset + 24) with
      | .error e => .error e
      | .ok high =>
        match readUInt32BE buf (offset + 28) with
        | .error e => .error e
        | .ok low => .ok ((high <<< 32) ||| low)
    else
      .ok (beNat (sliceBuf buf offset (offset + 32)))
  match valueE with
  | .error e => .error e
  | .ok value =>
    if 2 ^ bits - 1 < value then
      .error s!"Value too large for uint{bits}: {value}"
    else
      .ok (toString value, offset + 32)

/-- `decodeInt(buffer, offset, bits = 256)`: full 32-byte slice read as
hex (`BigInt('0x'+hex)` throws on an empty slice), two's-complement
interpretation at `bits`, then range check.  Decimal string result. -/
def decodeInt (buf : List Nat) (offset : Nat) (bits : Nat) :
    Except String (String × Nat) :=
  let slice := sliceBuf buf offset (offset + 32)
  if slice.isEmpty then .error "Cannot convert 0x to a BigInt"
  else
    let uval := beNat slice
    let value : Int :=
      if (2 : Int) ^ (bits - 1) ≤ (uval : Int) then (uval : Int) - 2 ^ bits
      else (uval : Int)
    if value < -((2 : Int) ^ (bits - 1)) ∨ value > (2 : Int) ^ (bits - 1) - 1 then
      .error s!"Value out of range for int{bits}: {value}"
    else
      .ok (toString value, offset + 32)

/-- `decodeBool`: `buffer.readUInt8(offset + 31) !== 0` (bounds-checked
single-byte read). -/
def decodeBool (buf : List Nat) (offset : Nat) : Except String (Val × Nat) :=
  if offset + 32 ≤ buf.length then
    .ok (.boolV (buf.getD (offset + 31) 0 ≠ 0), offset + 32)
  else .error "offset is out of range"

/-- `decodeAddress`: low 20 bytes of the word as lowercase `0x`-hex. -/
def decodeAddress (buf : List Nat) (offset : Nat) : Except String (Val × Nat) :=
  .ok (.str ("0x" ++ bytesToHexStr (sliceBuf buf (offset + 12) (offset + 32))),
       offset + 32)

/-- `decodeFixedBytes(buffer, offset, size)`: high `size` bytes as hex. -/
def decodeFixedBytes (buf : List Nat) (offset size : Nat) :
    Except String (Val × Nat) :=
  .ok (.str ("0x" ++ bytesToHexStr (sliceBuf buf offset (offset + size))),
       offset + 32)

/-- `decodeBytesAt`: length word, then that many bytes (clamped slice,
no bounds check) as hex; `nextOffset` skips the padded byte count. -/
def decodeBytesAt (buf : List Nat) (offset : Nat) : Except String (String × Nat) :=
  match decodeUint buf offset 256 with
  | .error e => .error e
  | .ok (lenStr, _) =>
    let length := decToNat lenStr
    let dataOffset := offset + 32
    let value := "0x" ++ bytesToHexStr (sliceBuf buf dataOffset (dataOffset + length))
    .ok (value, dataOffset + (length + 31) / 32 * 32)

/-- `decodeBytes` is `decodeBytesAt`. -/
def decodeBytes (buf : List Nat) (offset : Nat) : Except String (String × Nat) :=
  decodeBytesAt buf offset

/-- Unicode replacement character. -/
def replChar : Char := Char.ofNat 0xFFFD

/-- A decoded scalar value as a `Char`, replacement char when invalid. -/
def mkChar (n : Nat) : Char :=
  if n < 0xD800 ∨ (0xE000 ≤ n ∧ n < 0x110000) then Char.ofNat n else replChar

/-- UTF-8 decoding of a byte list, modelling `buffer.toString('utf8')`:
well-formed sequences decode to their scalar; ill-formed bytes become
U+FFFD (Node replaces ill-formed subsequences; the inputs in this
development are valid UTF-8, where this decoder agrees exactly). -/
def utf8DecodeAux : Nat → List Nat → List Char
  | 0, _ => []
  | _, [] => []
  | fuel + 1, b :: rest =>
    if b < 0x80 then Char.ofNat b :: utf8DecodeAux fuel rest
    else if b < 0xc0 then replChar :: utf8DecodeAux fuel rest
    else if b < 0xe0 then
      let b2 := rest.getD 0 0
      if 1 ≤ rest.length ∧ 0x80 ≤ b2 ∧ b2 < 0xc0 then
        mkChar ((b - 0xc0) * 64 + (b2 - 0x80)) :: utf8DecodeAux fuel (rest.drop 1)
      else replChar :: utf8DecodeAux fuel rest
    else if b < 0xf0 then
      let b2 := rest.getD 0 0
      let b3 := rest.getD 1 0
      if 2 ≤ rest.length ∧ 0x80 ≤ b2 ∧ b2 < 0xc0 ∧ 0x80 ≤ b3 ∧ b3 < 0xc0 then
        mkChar ((b - 0xe0) * 4096 + (b2 - 0x80) * 64 + (b3 - 0x80)) ::
          utf8DecodeAux fuel (rest.drop 2)
      else replChar :: utf8DecodeAux fuel rest
    else if b < 0xf8 then
      let b2 := rest.getD 0 0
      let b3 := rest.getD 1 0
      let b4 := rest.getD 2 0
      if 3 ≤ rest.length ∧ 0x80 ≤ b2 ∧ b2 < 0xc0 ∧ 0x80 ≤ b3 ∧ b3 < 0xc0
          ∧ 0x80 ≤ b4 ∧ b4 < 0xc0 then
        mkChar ((b - 0xf0) * 262144 + (b2 - 0x80) * 4096 + (b3 - 0x80) * 64
            + (b4 - 0x80)) :: utf8DecodeAux fuel (rest.drop 3)
      else replChar :: utf8DecodeAux fuel rest
    else replChar :: utf8DecodeAux fuel rest

/-- `buffer.toString('utf8')`. -/
def utf8Decode (l : List Nat) : List Char :=
  utf8DecodeAux l.length l

/-- JS whitespace for `String.prototype.trim` (the characters relevant
to byte-decoded strings). -/
def jsIsSpace (c : Char) : Bool :=
  c = ' ' ∨ c = '\t' ∨ c = '\n' ∨ c = '\x0b' ∨ c = '\x0c' ∨ c = '\r'
    ∨ c = Char.ofNat 0xa0 ∨ c = Char.ofNat 0xfeff

/-- `value.replace(/\0/g, '').trim()`: drop every NUL, then trim both
ends. -/
def stripNullsAndTrim (cs : List Char) : List Char :=
  let noNulls := cs.filter (fun c => c ≠ Char.ofNat 0)
  ((noNulls.dropWhile jsIsSpace).reverse.dropWhile jsIsSpace).reverse

/-- `decodeString`: decode as bytes, hex back to bytes, UTF-8 decode,
then the source's cleanup (`replace(/\0/g, '').trim()`). -/
def decodeString (buf : List Nat) (offset : Nat) : Except String (Val × Nat) :=
  match decodeBytes buf offset with
  | .error e => .error e
  | .ok (value, nextOffset) =>
    let hex := value.toList.drop 2
    let bytes := hexPairsToBytes hex
    .ok (.str (String.mk (stripNullsAndTrim (utf8Decode bytes))), nextOffset)

/-- `_decodeBasicType`: the switch over elementary types. -/
def decodeBasicType (typeStr : String) (buf : List Nat) (offset : Nat) :
    Except String (Val × Nat) :=
  if typeStr = "bool" then decodeBool buf offset
  else if typeStr = "address" then decodeAddress buf offset
  else if typeStr = "bytes" then
    match decodeBytes buf offset with
    | .error e => .error e
    | .ok (v, n) => .ok (.str v, n)
  else if typeStr = "string" then decodeString buf offset
  else match uintMatch typeStr with
  | some bits =>
    match decodeUint buf offset bits with
    | .error e => .error e
    | .ok (v, n) => .ok (.str v, n)
  | none => match intMatch typeStr with
    | some bits =>
      match decodeInt buf offset bits with
      | .error e => .error e
      | .ok (v, n) => .ok (.str v, n)
    | none => match bytesNMatch typeStr with
      | some size => decodeFixedBytes buf offset size
      | none => .error s!"Unsupported type: {typeStr}"

/-- `/^tuple\((.+)\)$/`: the component list string of a string-form
tuple type. -/
def tupleInner (s : String) : Option String :=
  if startsWithS s "tuple(" ∧ s.toList.getLast? = some ')'
      ∧ 7 ≤ s.toList.length then
    some (String.mk ((s.toList.drop 6).dropLast))
  else none

/-- `trimmed.split(/\s+/)`: split on maximal whitespace runs (`fuel`
bounds the loop; the wrapper passes the character count plus one, which
always suffices). -/
def splitWsAux : Nat → List Char → List (List Char)
  | 0, _ => []
  | _, [] => []
  | fuel + 1, c :: rest =>
    if jsIsSpace c then splitWsAux fuel rest
    else
      let piece := rest.takeWhile (fun d => !jsIsSpace d)
      (c :: piece) :: splitWsAux fuel (rest.dropWhile (fun d => !jsIsSpace d))

def splitWs (cs : List Char) : List (List Char) :=
  splitWsAux (cs.length + 1) cs

/-- Flush one accumulated component: split the trimmed text on
whitespace, first part the type, second (or `field{k}`) the name. -/
def flushComponent (current : List Char) (acc : List Param) : List Param :=
  let trimmed := ((current.dropWhile jsIsSpace).reverse.dropWhile jsIsSpace).reverse
  if trimmed.isEmpty then acc
  else
    let parts := splitWs trimmed
    let type := String.mk (parts.getD 0 [])
    let name := match parts.getD 1 [] with
      | [] => s!"field{acc.length}"
      | cs => String.mk cs
    acc ++ [Param.mk name type false none]

/-- The character loop of `parseTupleComponents`: depth tracking over
`()`/`[]`, splitting on depth-0 commas; a first depth-0 space inside a
component is dropped (the `inType` flag) without separating the
accumulated text. -/
def parseTupleComponentsAux : List Char → Int → List Char → Bool → List Param →
    List Param
  | [], _, current, _, acc => flushComponent current acc
  | ch :: rest, depth, current, inType, acc =>
    if ch = '(' ∨ ch = '[' then
      parseTupleComponentsAux rest (depth + 1) (current ++ [ch]) inType acc
    else if ch = ')' ∨ ch = ']' then
      parseTupleComponentsAux rest (depth - 1) (current ++ [ch]) inType acc
    else if ch = ',' ∧ depth = 0 then
      parseTupleComponentsAux rest depth [] inType (flushComponent current acc)
    else if ch = ' ' ∧ depth = 0
        ∧ ¬ ((current.dropWhile jsIsSpace).isEmpty) ∧ inType then
      parseTupleComponentsAux rest depth current false acc
    else
      parseTupleComponentsAux rest depth (current ++ [ch]) inType acc

/-- `parseTupleComponents(componentStr)`. -/
def parseTupleComponents (componentStr : String) : List Param :=
  parseTupleComponentsAux componentStr.toList 0 [] true []

/-- `Decoder.isDynamicType`: `string`/`bytes`, a `[]` anywhere in the
type string, or a tuple with some dynamic component (components from
the descriptor object when present, else parsed from the string).
`fuel` bounds the recursion through parsed component strings. -/
def isDynamicType (fuel : Nat) (t : TypeDesc) : Bool :=
  match fuel with
  | 0 => false
  | fuel + 1 =>
    let typeStr := t.typeStr
    if typeStr = "string" ∨ typeStr = "bytes" then true
    else if hasDynBrackets typeStr then true
    else if startsWithS typeStr "tuple" then
      match t.components with
      | some comps => comps.any (fun p => isDynamicType fuel (.param p))
      | none =>
        match tupleInner typeStr with
        | some inner =>
          (parseTupleComponents inner).any (fun p => isDynamicType fuel (.param p))
        | none => false
    else false

/-- `type.indexOf('[')` (the caller guarantees a bracket is present). -/
def firstBracketIdx (cs : List Char) : Nat :=
  match cs with
  | [] => 0
  | c :: rest => if c = '[' then 0 else firstBracketIdx rest + 1

mutual

/-- `decodeParameter(type, buffer, offset)`: cache probe keyed by
`(type, offset, buffer.length)` — independent of the buffer contents —
then dispatch (`[` ⇒ array, `tuple` prefix ⇒ tuple, else basic) and
cache fill on success below the 1000-entry bound. -/
def decodeParameter (fuel : Nat) (cache : DecCache) (t : TypeDesc)
    (buf : List Nat) (offset : Nat) : Except String (Val × Nat) × DecCache :=
  match fuel with
  | 0 => (.error "fuel exhausted", cache)
  | fuel + 1 =>
    let key : CacheKey := (t, offset, buf.length)
    match cacheGet cache key with
    | some result => (.ok result, cache)
    | none =>
      let typeStr := t.typeStr
      let step :=
        if containsCharS typeStr '[' then decodeArray fuel cache typeStr buf offset
        else if startsWithS typeStr "tuple" then decodeTuple fuel cache t buf offset
        else (decodeBasicType typeStr buf offset, cache)
      match step with
      | (.ok r, cache') =>
        (.ok r, if cache'.length < 1000 then cacheSet cache' key r else cache')
      | (.error e, cache') => (.error e, cache')
termination_by structural fuel

/-- `decodeArray(type, buffer, offset)`: split base type at the *first*
bracket; if the whole type is dynamic, re-read a data offset at
`offset`; fixed length from the spec digits or a length word; then the
element loop (sequential for static bases; offset words at
`floor(offset/32)*32 + elementOffset` for dynamic bases). -/
def decodeArray (fuel : Nat) (cache : DecCache) (type : String)
    (buf : List Nat) (offset : Nat) : Except String (Val × Nat) × DecCache :=
  match fuel with
  | 0 => (.error "fuel exhausted", cache)
  | fuel + 1 =>
    let bracketIndex := firstBracketIdx type.toList
    let baseType := String.mk (type.toList.take bracketIndex)
    let arraySpec := String.mk (type.toList.drop bracketIndex)
    let isFixedSize := arraySpec ≠ "[]"
    -- `parseInt(arraySpec.slice(1, -1))`: `NaN` (`none`) makes the
    -- element loop run zero times below.
    let fixedSize := parseIntJS (String.mk (arraySpec.toList.drop 1).dropLast)
    let startE : Except String Nat :=
      if isDynamicType fuel (.str type) then
        match decodeUint buf offset 256 with
        | .error e => .error e
        | .ok (offStr, _) => .ok (decToNat offStr)
      else .ok offset
    match startE with
    | .error e => (.error e, cache)
    | .ok currentOffset0 =>
      let lengthE : Except String (Nat × Nat) :=
        if isFixedSize then .ok (fixedSize.getD 0, currentOffset0)
        else
          match decodeUint buf currentOffset0 256 with
          | .error e => .error e
          | .ok (lenStr, nextOffset) => .ok (decToNat lenStr, nextOffset)
      match lengthE with
      | .error e => (.error e, cache)
      | .ok (arrayLength, currentOffset) =>
        if isDynamicType fuel (.str baseType) then
          let staticOffset := currentOffset
          let absBase := if isDynamicType fuel (.str type) then offset / 32 * 32 else 0
          match decodeDynamicElems fuel cache baseType buf staticOffset absBase 0
              arrayLength with
          | (.error e, c') => (.error e, c')
          | (.ok results, c') =>
            (.ok (.arr results, currentOffset + arrayLength * 32), c')
        else
          match decodeStaticElems fuel cache baseType buf currentOffset arrayLength with
          | (.error e, c') => (.error e, c')
          | (.ok (results, finalOffset), c') => (.ok (.arr results, finalOffset), c')
termination_by structural fuel

/-- The dynamic-element loop of `decodeArray`: element `i`'s offset word
at `staticOffset + i*32`, decoded at `absBase + elementOffset`. -/
def decodeDynamicElems (fuel : Nat) (cache : DecCache) (baseType : String)
    (buf : List Nat) (staticOffset absBase i n : Nat) :
    Except String (List Val) × DecCache :=
  match n with
  | 0 => (.ok [], cache)
  | n + 1 =>
    match fuel with
    | 0 => (.error "fuel exhausted", cache)
    | fuel + 1 =>
      match decodeUint buf (staticOffset + i * 32) 256 with
      | .error e => (.error e, cache)
      | .ok (offStr, _) =>
        let absoluteOffset := absBase + decToNat offStr
        match decodeParameter fuel cache (.str baseType) buf absoluteOffset with
        | (.error e, c') => (.error e, c')
        | (.ok (v, _), c') =>
          match decodeDynamicElems fuel c' baseType buf staticOffset absBase (i + 1) n with
          | (.error e, c'') => (.error e, c'')
          | (.ok vs, c'') => (.ok (v :: vs), c'')
termination_by structural fuel

/-- The static-element loop of `decodeArray`: sequential decoding,
advancing by each element's `nextOffset`. -/
def decodeStaticElems (fuel : Nat) (cache : DecCache) (baseType : String)
    (buf : List Nat) (currentOffset n : Nat) :
    Except String (List Val × Nat) × DecCache :=
  match n with
  | 0 => (.ok ([], currentOffset), cache)
  | n + 1 =>
    match fuel with
    | 0 => (.error "fuel exhausted", cache)
    | fuel + 1 =>
      match decodeParameter fuel cache (.str baseType) buf currentOffset with
      | (.error e, c') => (.error e, c')
      | (.ok (v, nextOffset), c') =>
        match decodeStaticElems fuel c' baseType buf nextOffset n with
        | (.error e, c'') => (.error e, c'')
        | (.ok (vs, finalOffset), c'') => (.ok (v :: vs, finalOffset), c'')
termination_by structural fuel

/-- `decodeTuple(type, buffer, offset)`: components from the descriptor
object or parsed from a `tuple(...)` string, then two passes — static
fields and dynamic offset collection, then dynamic fields at
`offset + relativeOffset`. -/
def decodeTuple (fuel : Nat) (cache : DecCache) (t : TypeDesc)
    (buf : List Nat) (offset : Nat) : Except String (Val × Nat) × DecCache :=
  match fuel with
  | 0 => (.error "fuel exhausted", cache)
  | fuel + 1 =>
    let componentsE : Except String (List Param) :=
      match t with
      | .param p =>
        match p.components with
        | some comps => .ok comps
        | none =>
          match tupleInner p.type with
          | some inner => .ok (parseTupleComponents inner)
          | none => .error s!"Invalid tuple type format: {p.type}"
      | .str s =>
        match tupleInner s with
        | some inner => .ok (parseTupleComponents inner)
        | none => .error s!"Invalid tuple type format: {s}"
    match componentsE with
    | .error e => (.error e, cache)
    | .ok components =>
      match decodeTupleFirst fuel cache components 0 buf offset offset [] [] with
      | (.error e, c') => (.error e, c')
      | (.ok (result, dynamicOffsets, currentOffset), c') =>
        match decodeTupleSecond fuel c' dynamicOffsets buf result with
        | (.error e, c'') => (.error e, c'')
        | (.ok result', c'') => (.ok (.obj result', currentOffset), c'')
termination_by structural fuel

/-- First pass over tuple components: static components decoded in
place, dynamic ones recorded as `(absolute offset, field name,
component)` with the cursor advanced by 32. -/
def decodeTupleFirst (fuel : Nat) (cache : DecCache) (comps : List Param)
    (i : Nat) (buf : List Nat) (tupleStart currentOffset : Nat)
    (result : List (String × Val)) (dyns : List (Nat × String × Param)) :
    Except String (List (String × Val) × List (Nat × String × Param) × Nat)
      × DecCache :=
  match comps with
  | [] => (.ok (result, dyns, currentOffset), cache)
  | component :: rest =>
    match fuel with
    | 0 => (.error "fuel exhausted", cache)
    | fuel + 1 =>
      let fieldName := if component.name = "" then s!"field{i}" else component.name
      if isDynamicType fuel (.param component) then
        match decodeUint buf currentOffset 256 with
        | .error e => (.error e, cache)
        | .ok (relStr, _) =>
          let absoluteOffset := tupleStart + decToNat relStr
          decodeTupleFirst fuel cache rest (i + 1) buf tupleStart (currentOffset + 32)
            result (dyns ++ [(absoluteOffset, fieldName, component)])
      else
        match decodeParameter fuel cache (.param component) buf currentOffset with
        | (.error e, c') => (.error e, c')
        | (.ok (v, nextOffset), c') =>
          decodeTupleFirst fuel c' rest (i + 1) buf tupleStart nextOffset
            (mapSet result fieldName v) dyns
termination_by structural fuel

/-- Second pass over recorded dynamic tuple fields. -/
def decodeTupleSecond (fuel : Nat) (cache : DecCache)
    (dyns : List (Nat × String × Param)) (buf : List Nat)
    (result : List (String × Val)) :
    Except String (List (String × Val)) × DecCache :=
  match dyns with
  | [] => (.ok result, cache)
  | (off, fieldName, component) :: rest =>
    match fuel with
    | 0 => (.error "fuel exhausted", cache)
    | fuel + 1 =>
      match decodeParameter fuel cache (.param component) buf off with
      | (.error e, c') => (.error e, c')
      | (.ok (v, _), c') =>
        decodeTupleSecond fuel c' rest buf (mapSet result fieldName v)
termination_by structural fuel

end

/-- The per-parameter loop of `decodeParameters`: dynamic types
dereference a head offset word at the cursor, static types decode in
place; the cursor advances by 32 for *every* parameter. -/
def decodeParamsLoop (fuel : Nat) (cache : DecCache) (buf : List Nat) :
    List TypeDesc → Nat → Except String (List Val) × DecCache
  | [], _ => (.ok [], cache)
  | t :: rest, staticOffset =>
    if isDynamicType fuel t then
      match decodeUint buf staticOffset 256 with
      | .error e => (.error e, cache)
      | .ok (offStr, _) =>
        match decodeParameter fuel cache t buf (decToNat offStr) with
        | (.error e, c') => (.error e, c')
        | (.ok (v, _), c') =>
          match decodeParamsLoop fuel c' buf rest (staticOffset + 32) with
          | (.error e, c'') => (.error e, c'')
          | (.ok vs, c'') => (.ok (v :: vs), c'')
    else
      match decodeParameter fuel cache t buf staticOffset with
      | (.error e, c') => (.error e, c')
      | (.ok (v, _), c') =>
        match decodeParamsLoop fuel c' buf rest (staticOffset + 32) with
        | (.error e, c'') => (.error e, c'')
        | (.ok vs, c'') => (.ok (v :: vs), c'')

/-- `decodeParameters(types, data)`: empty or `0x` data yields `[]` or a
null-filled array; otherwise hex-decode and run the parameter loop from
offset 0. -/
def decodeParameters (fuel : Nat) (cache : DecCache) (types : List TypeDesc)
    (data : String) : Except String (List Val) × DecCache :=
  if data = "" ∨ data = "0x" then
    (.ok (if types.length = 0 then [] else List.replicate types.length Val.nullV),
     cache)
  else
    match hexToBuffer data with
    | .error e => (.error e, cache)
    | .ok buffer => decodeParamsLoop fuel cache buffer types 0

/-- The indexed-parameter loop of `decodeLog`: parameter `i` consumes
`topics[i + 1]`; a missing (or falsy) topic is skipped; dynamic types
store the raw topic string; static types decode the topic buffer at
offset 0. -/
def decodeLogTopics (fuel : Nat) (cache : DecCache) (params : List Param)
    (i : Nat) (topics : List String) (args : List (String × Val)) :
    Except String (List (String × Val)) × DecCache :=
  match params with
  | [] => (.ok args, cache)
  | param :: rest =>
    let topic := topics.getD (i + 1) ""
    if topic = "" then decodeLogTopics fuel cache rest (i + 1) topics args
    else if isDynamicType fuel (.str param.type) then
      decodeLogTopics fuel cache rest (i + 1) topics
        (mapSet args param.name (.str topic))
    else
      match hexToBuffer topic with
      | .error e => (.error e, cache)
      | .ok topicBuffer =>
        match decodeParameter fuel cache (.str param.type) topicBuffer 0 with
        | (.error e, c') => (.error e, c')
        | (.ok (v, _), c') =>
          decodeLogTopics fuel c' rest (i + 1) topics (mapSet args param.name v)

/-- `result.args[nonIndexedParams[i].name] = decodedData[i]` (the two
lists always have equal length at the call site). -/
def assignNonIndexed (args : List (String × Val)) :
    List Param → List Val → List (String × Val)
  | [], _ => args
  | p :: ps, v :: vs => assignNonIndexed (mapSet args p.name v) ps vs
  | p :: ps, [] => assignNonIndexed (mapSet args p.name .nullV) ps []

/-- `decodeLog(eventAbi, data, topics)`: indexed parameters from
`topics[1..]` (missing topics skipped), non-indexed parameters decoded
from `data` (when nonempty) by their bare type strings. -/
def decodeLog (fuel : Nat) (cache : DecCache) (eventAbi : AbiItem)
    (data : String) (topics : List String) :
    Except String (String × List (String × Val)) × DecCache :=
  let indexedParams := eventAbi.inputs.filter (·.indexed)
  let nonIndexedParams := eventAbi.inputs.filter (fun p => !p.indexed)
  match decodeLogTopics fuel cache indexedParams 0 topics [] with
  | (.error e, c') => (.error e, c')
  | (.ok args, c') =>
    if 0 < nonIndexedParams.length ∧ data ≠ "" ∧ data ≠ "0x" then
      let types := nonIndexedParams.map (fun p => TypeDesc.str p.type)
      match decodeParameters fuel c' types data with
      | (.error e, c'') => (.error e, c'')
      | (.ok decodedData, c'') =>
        (.ok (eventAbi.name, assignNonIndexed args nonIndexedParams decodedData), c'')
    else (.ok (eventAbi.name, args), c')

end Decoder

/-! ## Codec facade (`abi-codec.js`) -/

/-- A receipt log record (`topics`/`data` consumed by the core, the
other fields passthrough metadata). -/
structure Log where
  address : String
  topics : List String
  data : String
  blockHash : String
  blockNumber : String
  transactionHash : String
  transactionIndex : String
  removed : Bool

structure Receipt where
  logs : List Log

/-- One decoded receipt log: the `decodeLog` result spread together with
`logIndex` and the passthrough metadata. -/
structure DecodedLog where
  name : String
  args : List (String × Val)
  logIndex : Nat
  address : String
  blockHash : String
  blockNumber : String
  transactionHash : String
  transactionIndex : String
  removed : Bool

/-- The codec state after construction: the (already parsed) ABI and
the two lookup maps built by `_compileFunctions` / `_compileEvents`. -/
structure ABICodec where
  abi : List AbiItem
  functions : List (String × AbiItem)
  events : List (String × AbiItem)

/-- `_compileFunctions`: for each `function` entry, `set(selector, item)`
then `set(item.name, item)`. -/
def compileFunctions : List AbiItem → List (String × AbiItem) →
    List (String × AbiItem)
  | [], m => m
  | item :: rest, m =>
    if item.itemType = "function" then
      compileFunctions rest (mapSet (mapSet m (getFunctionSelector item) item)
        item.name item)
    else compileFunctions rest m

/-- `_compileEvents`: for each `event` entry, `set(topic0, item)` then
`set(item.name, item)`. -/
def compileEvents : List AbiItem → List (String × AbiItem) →
    List (String × AbiItem)
  | [], m => m
  | item :: rest, m =>
    if item.itemType = "event" then
      compileEvents rest (mapSet (mapSet m (getEventSelector item) item)
        item.name item)
    else compileEvents rest m

/-- `new ABICodec(abi)`: build both indexes (the fresh
`Encoder`/`Decoder` caches start empty and are passed explicitly to the
operations below). -/
def mkABICodec (abi : List AbiItem) : ABICodec :=
  ⟨abi, compileFunctions abi [], compileEvents abi []⟩

/-- `ABICodec.encodeFunction(nameOrSelector, params)`: look the function
up by name or selector, recompute its selector, and prepend it to the
parameter encoding (with the `0x` of the latter stripped). -/
def ABICodec.encodeFunction (codec : ABICodec) (fuel : Nat)
    (cache : Encoder.EncCache) (nameOrSelector : String) (params : List JVal) :
    Except String String × Encoder.EncCache :=
  match List.lookup nameOrSelector codec.functions with
  | none => (.error s!"Function not found: {nameOrSelector}", cache)
  | some func =>
    let selector := getFunctionSelector func
    match Encoder.encodeParameters fuel cache (func.inputs.map TypeDesc.param)
        params with
    | (.error e, c) => (.error e, c)
    | (.ok encoded, c) => (.ok (selector ++ String.mk (encoded.toList.drop 2)), c)

/-- The indexed loop of `decodeReceiptLogs`, carrying the running log
index `i` and the decoder cache: logs without topics are skipped, logs
with an unregistered `topics[0]` are skipped, logs whose `decodeLog`
throws are skipped (`catch { continue }`) with any cache writes
retained, and each successful decode is emitted in order with its
metadata. -/
def decodeReceiptLogsAux (fuel : Nat) (codec : ABICodec)
    (cache : Decoder.DecCache) (i : Nat) :
    List Log → List DecodedLog × Decoder.DecCache
  | [] => ([], cache)
  | log :: rest =>
    if log.topics.isEmpty then decodeReceiptLogsAux fuel codec cache (i + 1) rest
    else
      let topic0 := log.topics.getD 0 ""
      match List.lookup topic0 codec.events with
      | none => decodeReceiptLogsAux fuel codec cache (i + 1) rest
      | some event =>
        match Decoder.decodeLog fuel cache event log.data log.topics with
        | (.error _, c') => decodeReceiptLogsAux fuel codec c' (i + 1) rest
        | (.ok (nm, args), c') =>
          let (out, c'') := decodeReceiptLogsAux fuel codec c' (i + 1) rest
          (⟨nm, args, i, log.address, log.blockHash, log.blockNumber,
            log.transactionHash, log.transactionIndex, log.removed⟩ :: out, c'')

/-- `ABICodec.decodeReceiptLogs(receipt)`. -/
def ABICodec.decodeReceiptLogs (codec : ABICodec) (fuel : Nat)
    (cache : Decoder.DecCache) (receipt : Receipt) :
    List DecodedLog × Decoder.DecCache :=
  decodeReceiptLogsAux fuel codec cache 0 receipt.logs

/-! ## Shared evaluation lemmas -/

theorem beNat_foldl_lt (l : List Nat) : ∀ a : Nat, (∀ b ∈ l, b < 256) →
    l.foldl (fun x y => x * 256 + y) a < (a + 1) * 256 ^ l.length := by
  induction l with
  | nil => intro a _; simp
  | cons b t ih =>
    intro a h
    have hb : b < 256 := h b (List.mem_cons_self b t)
    have ht : ∀ x ∈ t, x < 256 := fun x hx => h x (List.mem_cons_of_mem b hx)
    have step := ih (a * 256 + b) ht
    calc (b :: t).foldl (fun x y => x * 256 + y) a
        = t.foldl (fun x y => x * 256 + y) (a * 256 + b) := by simp
      _ < (a * 256 + b + 1) * 256 ^ t.length := step
      _ ≤ ((a + 1) * 256) * 256 ^ t.length := by
          have : a * 256 + b + 1 ≤ (a + 1) * 256 := by omega
          exact Nat.mul_le_mul_right _ this
      _ = (a + 1) * 256 ^ (t.length + 1) := by ring
    
theorem beNat_lt (l : List Nat) (h : ∀ b ∈ l, b < 256) : beNat l < 256 ^ l.length := by
  simpa [beNat] using beNat_foldl_lt l 0 h

theorem sliceBuf_length_le (buf : List Nat) (a b : Nat) :
    (sliceBuf buf a b).length ≤ b - a := by
  simp [sliceBuf]

theorem sliceBuf_subset (buf : List Nat) (a b : Nat) :
    ∀ x ∈ sliceBuf buf a b, x ∈ buf := by
  intro x hx
  simp only [sliceBuf] at hx
  exact (buf.drop_subset a) ((List.take_subset _ _) hx)

theorem sliceBuf_beNat_lt (buf : List Nat) (a : Nat)
    (h : ∀ b ∈ buf, b < 256) : beNat (sliceBuf buf a (a + 32)) < 2 ^ 256 := by
  have h1 := beNat_lt (sliceBuf buf a (a + 32))
    (fun x hx => h x (sliceBuf_subset buf a (a + 32) x hx))
  have h2 : (sliceBuf buf a (a + 32)).length ≤ 32 := by
    have := sliceBuf_length_le buf a (a + 32); omega
  calc beNat (sliceBuf buf a (a + 32)) < 256 ^ (sliceBuf buf a (a + 32)).length := h1
    _ ≤ 256 ^ 32 := Nat.pow_le_pow_right (by norm_num) h2
    _ = 2 ^ 256 := by norm_num

/-- `decodeUint` at the default 256 bits never fails on byte-valued
buffers: the clamped 32-byte slice is below `2^256`. -/
theorem decodeUint_256_ok (buf : List Nat) (offset : Nat)
    (h : ∀ b ∈ buf, b < 256) :
    Decoder.decodeUint buf offset 256 =
      .ok (toString (beNat (sliceBuf buf offset (offset + 32))), offset + 32) := by
  have hlt := sliceBuf_beNat_lt buf offset h
  simp only [Decoder.decodeUint]
  norm_num
  omega

theorem sliceBuf_take (buf : List Nat) (a b k : Nat) (h : a + k ≤ b) :
    (sliceBuf buf a b).take k = sliceBuf buf a (a + k) := by
  simp only [sliceBuf, List.take_take]
  congr 1
  omega

theorem sliceBuf_drop (buf : List Nat) (a b k : Nat) :
    (sliceBuf buf a b).drop k = sliceBuf buf (a + k) b := by
  simp only [sliceBuf, List.drop_take, List.drop_drop]
  congr 1
  omega

/-! ## Claim C2 — observability of the decoder cache -/

/-- The 32-byte word encoding 1 and the 32-byte word encoding 2, as hex
call data. -/
def c2Data1 : String := bufferToHex (natToBeBytes 1 32)

def c2Data2 : String := bufferToHex (natToBeBytes 2 32)

/-- C2 (code_bug): memoization is observable.  The decoder cache key
`(type, offset, buffer.length)` ignores the buffer contents, so after
decoding the word 1, decoding the *different* word 2 of the same length
on the same `Decoder` instance returns the stale `"1"`, while a fresh
`Decoder` returns `"2"`.  A cache hit and a cache miss return different
values, contradicting the claim. -/
theorem c2_cache_hit_returns_stale_value :
    (Decoder.decodeParameters 10 [] [TypeDesc.str "uint256"] c2Data1).1 =
      .ok [Val.str "1"]
    ∧ (Decoder.decodeParameters 10
        (Decoder.decodeParameters 10 [] [TypeDesc.str "uint256"] c2Data1).2
        [TypeDesc.str "uint256"] c2Data2).1 = .ok [Val.str "1"]
    ∧ (Decoder.decodeParameters 10 [] [TypeDesc.str "uint256"] c2Data2).1 =
      .ok [Val.str "2"]
    ∧ Val.str "1" ≠ Val.str "2" := by
  refine ⟨by rfl, by rfl, by rfl, ?_⟩
  intro h
  injection h with h'
  exact absurd h' (by decide)

/-! ## Claim C4 — truncation behaviour -/

/-- A dynamic `uint256[]` region claiming 5 elements with only one
element word present: head offset 32, length word 5, one element 7. -/
def c4LenClaimBuf : List Nat :=
  natToBeBytes 32 32 ++ natToBeBytes 5 32 ++ natToBeBytes 7 32

/-- C4 counterexample: decoding the single byte `0x01` as `uint256`
reads past the end of the input and *returns a value* (`"1"`, from the
clamped one-byte slice) instead of failing with `Truncated`. -/
theorem c4_counterexample :
    (Decoder.decodeParameters 10 [] [TypeDesc.str "uint256"] "0x01").1 =
      .ok [Val.str "1"] := by rfl

/-- C4 (amended): the decoder performs no end-of-input checks on the
`uint256` slice path or on dynamic-array length claims — (i) a
truncated word decodes to the big-endian value of the bytes present;
(iii) a length claim exceeding the remaining input is used as-is,
decoding the missing elements as zeros from clamped empty slices.  Only
(ii) the `bits ≤ 64` fast path (`readUInt32BE`) raises on a read past
the end of the buffer. -/
theorem c4_amended :
    ((Decoder.decodeParameters 10 [] [TypeDesc.str "uint256"] "0x01").1 =
      .ok [Val.str "1"])
    ∧ (∀ buf : List Nat, ∀ offset bits : Nat, bits ≤ 64 →
        buf.length < offset + 32 →
        Decoder.decodeUint buf offset bits = .error "offset is out of range")
    ∧ ((Decoder.decodeParameter 10 [] (TypeDesc.str "uint256[]")
          c4LenClaimBuf 0).1 =
        .ok (Val.arr [Val.str "7", Val.str "0", Val.str "0", Val.str "0",
          Val.str "0"], 224)) := by
  refine ⟨by rfl, ?_, by rfl⟩
  intro buf offset bits hbits hlen
  simp only [Decoder.decodeUint, Decoder.readUInt32BE]
  have h1 : ¬ (offset + 28 + 4 ≤ buf.length) := by omega
  by_cases h0 : offset + 24 + 4 ≤ buf.length <;> simp [h0, h1, hbits]

/-- C4 witness: the fast-path bounds error at a concrete input. -/
theorem c4_witness :
    Decoder.decodeUint [] 0 8 = .error "offset is out of range" :=
  c4_amended.2.1 [] 0 8 (by decide) (by decide)

/-! ## Claim C5 — canonical rendering -/

/-- A function with a single tuple parameter (components present). -/
def c5TupleFn : AbiItem :=
  ⟨"function", "f",
    [Param.mk "x" "tuple" false
      (some [Param.mk "a" "uint256" false none,
             Param.mk "b" "address" false none])], [], false⟩

/-- C5 counterexample: the signature hashed for the selector renders a
tuple parameter as the literal string `tuple`, not as the parenthesized
component list — `getFunctionSignature` yields `f(tuple)` rather than
`f((uint256,address))`. -/
theorem c5_counterexample :
    getFunctionSignature c5TupleFn = "f(tuple)"
    ∧ getFunctionSignature c5TupleFn ≠ "f((uint256,address))" := by
  exact ⟨by rfl, by decide⟩

/-- C5 (amended): bare `uint`/`int` are canonicalized to
`uint256`/`int256`, including as the base of a single-suffix array; but
a tuple parameter is rendered as the literal string `tuple` (its
components are never expanded), for every name and component list. -/
theorem c5_amended :
    getCanonicalType (Param.mk "" "uint" false none) = "uint256"
    ∧ getCanonicalType (Param.mk "" "int" false none) = "int256"
    ∧ getCanonicalType (Param.mk "" "uint[]" false none) = "uint256[]"
    ∧ getCanonicalType (Param.mk "" "int[3]" false none) = "int256[3]"
    ∧ ∀ (name : String) (indexed : Bool) (comps : Option (List Param)),
        getCanonicalType (Param.mk name "tuple" indexed comps) = "tuple" := by
  exact ⟨by rfl, by rfl, by rfl, by rfl, fun name indexed comps => by rfl⟩

/-! ## Claim C6 — tuple encoding -/

/-- C6 counterexample: encoding any value at a top-level `tuple` type
throws `Tuple encoding not yet implemented` (here at a concrete
input). -/
theorem c6_counterexample :
    (Encoder.encodeParameters 10 [] [TypeDesc.str "tuple"] [JVal.arr []]).1 =
      .error "Tuple encoding not yet implemented" := by rfl

/-- C6 (amended): tuple encoding is *not* implemented symmetrically
with decoding: for every type string with the `tuple` prefix and no
array bracket, every value, and every positive fuel, `encodeParameter`
on a fresh encoder fails with `Tuple encoding not yet implemented`. -/
theorem c6_amended (ts : String) (v : JVal) (fuel : Nat)
    (h1 : startsWithS ts "tuple" = true)
    (h2 : containsCharS ts '[' = false) :
    Encoder.encodeParameter (fuel + 1) [] ts v =
      (.error "Tuple encoding not yet implemented", []) := by
  simp [Encoder.encodeParameter, h1, h2, Encoder.encodeTuple, List.lookup]

/-- C6 witness. -/
theorem c6_witness :
    Encoder.encodeParameter 1 [] "tuple" (JVal.arr []) =
      (.error "Tuple encoding not yet implemented", []) :=
  c6_amended "tuple" (JVal.arr []) 0 (by decide) (by decide)

/-! ## Claim C7 — ERC-20 transfer vector -/

/-- The `transfer(address,uint256)` ABI function entry. -/
def transferFn : AbiItem :=
  ⟨"function", "transfer",
    [Param.mk "to" "address" false none,
     Param.mk "value" "uint256" false none], [], false⟩

/-- The expected 68 bytes: selector `a9059cbb` then two words equal 1. -/
def c7Bytes : List Nat :=
  [0xa9, 0x05, 0x9c, 0xbb] ++ natToBeBytes 1 32 ++ natToBeBytes 1 32

/-- C7 (confirmed): encoding `transfer(0x…01, 1)` through the codec
yields exactly the selector `0xa9059cbb` — the first 4 bytes of
`keccak256("transfer(address,uint256)")` — followed by two 32-byte
words equal to 1, 68 bytes in total. -/
theorem c7_erc20_transfer_vector :
    ((mkABICodec [transferFn]).encodeFunction 10 [] "transfer"
      [JVal.s "0x0000000000000000000000000000000000000001", JVal.n 1]).1 =
      .ok (bufferToHex c7Bytes)
    ∧ getFunctionSelector transferFn = "0xa9059cbb"
    ∧ getFunctionSignature transferFn = "transfer(address,uint256)"
    ∧ keccak256 (utf8Encode "transfer(address,uint256)") =
      "0xa9059cbb2ab09eb219583f4a59a5d0623ade346d962bcd4e46b11da047c9049b"
    ∧ c7Bytes.length = 68 := by
  exact ⟨by rfl, by rfl, by rfl, by rfl, by rfl⟩

/-! ## Claim C8 — `decodeUint` reads -/

/-- A 32-byte word with the top byte 1 (bit 248 set) and the low byte 5. -/
def c8Word : List Nat := 1 :: (List.replicate 30 0 ++ [5])

/-- C8 counterexample: at `bits = 8` the fast path ignores the first 24
bytes of the word — a word with bit 248 set decodes to `"5"` with no
`RangeError`, though the claim demands failure whenever a bit at
position ≥ 8 is set (`beNat c8Word = 2^248 + 5 ≥ 2^8`). -/
theorem c8_counterexample :
    Decoder.decodeUint c8Word 0 8 = .ok ("5", 32)
    ∧ 2 ^ 8 ≤ beNat c8Word := by
  exact ⟨by rfl, by decide⟩

/-- C8 (amended): for `64 < bits` the full 32-byte word is read
big-endian and `RangeError` is raised exactly when a bit at position
`≥ bits` is set (value `≥ 2^bits`); but for `bits ≤ 64` only bytes
24–32 of the word are read, so the result is unchanged under any
modification of the first 24 bytes (given equal buffer lengths). -/
theorem c8_amended :
    (∀ buf : List Nat, ∀ offset bits : Nat, 64 < bits →
      ((∃ e, Decoder.decodeUint buf offset bits = .error e) ↔
        2 ^ bits ≤ beNat (sliceBuf buf offset (offset + 32)))
      ∧ (beNat (sliceBuf buf offset (offset + 32)) < 2 ^ bits →
          Decoder.decodeUint buf offset bits =
            .ok (toString (beNat (sliceBuf buf offset (offset + 32))),
                 offset + 32)))
    ∧ (∀ buf buf2 : List Nat, ∀ offset bits : Nat, bits ≤ 64 →
        buf.length = buf2.length →
        sliceBuf buf (offset + 24) (offset + 32) =
          sliceBuf buf2 (offset + 24) (offset + 32) →
        Decoder.decodeUint buf offset bits = Decoder.decodeUint buf2 offset bits) := by
  constructor
  · intro buf offset bits hbits
    have hb : ¬ (bits ≤ 64) := by omega
    have hpow : 0 < 2 ^ bits := Nat.pos_pow_of_pos bits (by norm_num)
    constructor
    · constructor
      · rintro ⟨e, he⟩
        by_contra hlt
        simp only [Decoder.decodeUint, hb, if_false] at he
        rw [if_neg (by omega)] at he
        exact Except.noConfusion he
      · intro hge
        refine ⟨s!"Value too large for uint{bits}: {beNat (sliceBuf buf offset (offset + 32))}", ?_⟩
        simp only [Decoder.decodeUint, hb, if_false]
        rw [if_pos (by omega)]
    · intro hlt
      simp only [Decoder.decodeUint, hb, if_false]
      rw [if_neg (by omega)]
  · intro buf buf2 offset bits hbits hlen hslice
    have e28 : offset + 24 + 4 = offset + 28 := by omega
    have e32 : offset + 28 + 4 = offset + 32 := by omega
    have h1 : sliceBuf buf (offset + 24) (offset + 28) =
        sliceBuf buf2 (offset + 24) (offset + 28) := by
      have h := congrArg (List.take 4) hslice
      rw [sliceBuf_take buf (offset + 24) (offset + 32) 4 (by omega),
          sliceBuf_take buf2 (offset + 24) (offset + 32) 4 (by omega), e28] at h
      exact h
    have h2 : sliceBuf buf (offset + 28) (offset + 32) =
        sliceBuf buf2 (offset + 28) (offset + 32) := by
      have h := congrArg (List.drop 4) hslice
      rw [sliceBuf_drop buf (offset + 24) (offset + 32) 4,
          sliceBuf_drop buf2 (offset + 24) (offset + 32) 4, e28] at h
      exact h
    simp only [Decoder.decodeUint, Decoder.readUInt32BE, hbits, if_true, hlen]
    rw [e28, e32, h1, h2]

/-- C8 witness: the amended claim applied at concrete inputs — a high
bit at `bits = 72` does raise, and the `bits = 8` fast path cannot see
a change in the first 24 bytes. -/
theorem c8_witness :
    (∃ e, Decoder.decodeUint c8Word 0 72 = .error e)
    ∧ Decoder.decodeUint c8Word 0 8 =
        Decoder.decodeUint (0 :: (List.replicate 30 0 ++ [5])) 0 8 := by
  constructor
  · exact ((c8_amended.1 c8Word 0 72 (by decide)).1).mpr (by decide)
  · exact c8_amended.2 c8Word (0 :: (List.replicate 30 0 ++ [5])) 0 8
      (by decide) (by decide) (by decide)

/-! ## Claim C3 — head layout -/

def c3Types : List TypeDesc := [TypeDesc.str "uint256[3]", TypeDesc.str "string"]

def c3Values : List JVal := [JVal.arr [JVal.n 1, JVal.n 2, JVal.n 3], JVal.s "a"]

/-- The 192 bytes the encoder actually produces for
`(uint256[3], string)` at `([1,2,3], "a")`. -/
def c3Bytes : List Nat :=
  natToBeBytes 1 32 ++ natToBeBytes 2 32 ++ natToBeBytes 3 32 ++
  natToBeBytes 64 32 ++
  (natToBeBytes 1 32 ++ (utf8Encode "a" ++ List.replicate 31 0))

/-- C3 (code_bug): the encoder initializes the running tail offset as
`types.length * 32` (compare `encodeParameters`, `dynamicOffset`),
assuming every static head occupies 32 bytes.  With the 96-byte static
head `uint256[3]` before a dynamic `string`, the emitted offset word
(bytes 96–128) is 64, but the string's tail actually begins at byte
128 = `head_size` (96 + 32): the offset does not equal the distance
from the start of the encoding to the tail, contradicting the claim
(and the ABI layout). -/
theorem c3_head_offset_wrong :
    (Encoder.encodeParameters 10 [] c3Types c3Values).1 = .ok (bufferToHex c3Bytes)
    ∧ wordAt c3Bytes 96 = 64
    ∧ Encoder.encodeString (JVal.s "a") = .ok (sliceBuf c3Bytes 128 192)
    ∧ c3Bytes.length = 192
    ∧ (64 : Nat) ≠ 128 := by
  exact ⟨by rfl, by rfl, by rfl, by rfl, by decide⟩

/-! ## Claim C1 — round trip -/

/-- Any successful run of the dynamic-element loop returns exactly as
many values as the length it was asked for, whatever the fuel, cache
and buffer. -/
theorem decodeDynamicElems_length :
    ∀ (n fuel i staticOffset absBase : Nat) (cache : Decoder.DecCache)
      (baseType : String) (buf : List Nat) (vs : List Val) (c' : Decoder.DecCache),
      Decoder.decodeDynamicElems fuel cache baseType buf staticOffset absBase i n =
        (.ok vs, c') → vs.length = n := by
  intro n
  induction n with
  | zero =>
    intro fuel i s a cache bt buf vs c' h
    simp only [Decoder.decodeDynamicElems, Prod.mk.injEq] at h
    obtain ⟨h1, _⟩ := h
    cases h1
    rfl
  | succ n ih =>
    intro fuel i s a cache bt buf vs c' h
    match fuel with
    | 0 => simp [Decoder.decodeDynamicElems] at h
    | fuel + 1 =>
      simp only [Decoder.decodeDynamicElems] at h
      split at h
      · simp at h
      · split at h
        · simp at h
        · split at h
          · simp at h
          · rename_i v c1 heq vs1 c2 hrec
            simp only [Prod.mk.injEq, Except.ok.injEq] at h
            obtain ⟨h1, _⟩ := h
            subst h1
            simp only [List.length_cons]
            exact congrArg Nat.succ (ih _ _ _ _ _ _ _ _ _ hrec)

def c1Values : List JVal := [JVal.arr [JVal.s "a", JVal.s "bc"]]

/-- The 256 bytes the encoder produces for `string[] = ["a","bc"]` —
exactly the spec-S5 layout: head offset `0x20`, length 2, inner head
offsets `0x40` and `0x80`, then the two length-prefixed padded
strings. -/
def c1Bytes : List Nat :=
  natToBeBytes 32 32 ++ natToBeBytes 2 32 ++ natToBeBytes 64 32 ++ natToBeBytes 128 32 ++
  (natToBeBytes 1 32 ++ (utf8Encode "a" ++ List.replicate 31 0)) ++
  (natToBeBytes 2 32 ++ (utf8Encode "bc" ++ List.replicate 30 0))

/-- The 96 bytes the encoder produces for `(string)` at `" a "`. -/
def c1TrimBytes : List Nat :=
  natToBeBytes 32 32 ++ natToBeBytes 3 32 ++ (utf8Encode " a " ++ List.replicate 29 0)

theorem c1_hexRoundtrip : hexToBuffer (bufferToHex c1Bytes) = .ok c1Bytes := by rfl

theorem isDyn_strArr (f : Nat) :
    Decoder.isDynamicType (f + 1) (TypeDesc.str "string[]") = true := by rfl

theorem isDyn_str (f : Nat) :
    Decoder.isDynamicType (f + 1) (TypeDesc.str "string") = true := by rfl

/-- Decoding the encoder's own `string[] = ["a","bc"]` output commits to
an array length of 2097152, not 2: `decodeParameters` dereferences the
head offset (32) and calls `decodeParameter` there, but `decodeArray`
dereferences *again* at 32 — reading the length word 2 as a data offset
— and then reads the "length" at byte 2, whose big-endian value is
`0x20 · 2^16 = 2097152`.  So any successful decode returns an array of
2097152 elements. -/
theorem c1_len_forced :
    ∀ (fuel : Nat) (vs : List Val) (c' : Decoder.DecCache),
      Decoder.decodeParameters fuel [] [TypeDesc.str "string[]"] (bufferToHex c1Bytes) =
        (.ok [Val.arr vs], c') → vs.length = 2097152 := by
  intro fuel vs c' h
  simp only [Decoder.decodeParameters, c1_hexRoundtrip] at h
  rw [if_neg (by decide)] at h
  match fuel with
  | 0 =>
    simp only [Decoder.decodeParamsLoop, Decoder.isDynamicType, Bool.false_eq_true,
      if_false, Decoder.decodeParameter] at h
    exact absurd h (by simp)
  | f + 1 =>
    simp only [Decoder.decodeParamsLoop, isDyn_strArr, if_true] at h
    rw [show Decoder.decodeUint c1Bytes 0 256 = .ok ("32", 32) from rfl] at h
    simp only [Decoder.decodeParameter] at h
    rw [show Decoder.cacheGet [] (TypeDesc.str "string[]", decToNat "32",
      c1Bytes.length) = none from rfl] at h
    simp only [show containsCharS (TypeDesc.typeStr (TypeDesc.str "string[]")) '[' = true
      from rfl, if_true] at h
    match f with
    | 0 => simp [Decoder.decodeArray] at h
    | g + 1 =>
      simp only [Decoder.decodeArray,
        show (TypeDesc.str "string[]").typeStr = "string[]" from rfl,
        show decToNat "32" = 32 from rfl,
        show Decoder.firstBracketIdx ("string[]".toList) = 6 from rfl,
        show String.mk (List.drop 6 ("string[]".toList)) = "[]" from rfl,
        show String.mk (List.take 6 ("string[]".toList)) = "string" from rfl,
        ne_eq, not_true, if_false,
        show Decoder.decodeUint c1Bytes 32 256 = .ok ("2", 64) from rfl,
        show decToNat "2" = 2 from rfl,
        show Decoder.decodeUint c1Bytes 2 256 = .ok ("2097152", 34) from rfl,
        show decToNat "2097152" = 2097152 from rfl] at h
      match g with
      | 0 =>
        simp only [show Decoder.isDynamicType 0 (TypeDesc.str "string[]") = false from rfl,
          Bool.false_eq_true, if_false,
          show Decoder.isDynamicType 0 (TypeDesc.str "string") = false from rfl,
          show Decoder.decodeUint c1Bytes 32 256 = .ok ("2", 64) from rfl,
          show decToNat "2" = 2 from rfl,
          show Decoder.decodeStaticElems 0 [] "string" c1Bytes 64 2 =
            (.error "fuel exhausted", []) from rfl] at h
        exact absurd h (by simp)
      | k + 1 =>
        simp only [isDyn_strArr, isDyn_str, eq_self_iff_true, if_true,
          show (32 : Nat) / 32 * 32 = 32 from rfl,
          show Decoder.decodeUint c1Bytes 2 256 = .ok ("2097152", 34) from rfl,
          show decToNat "2097152" = 2097152 from rfl] at h
        rcases hd : Decoder.decodeDynamicElems (k + 1) [] "string" c1Bytes 34 32 0 2097152
          with ⟨res, cd⟩
        rw [hd] at h
        match res with
        | .error e => simp at h
        | .ok results =>
          simp only [Prod.mk.injEq, Except.ok.injEq, List.cons.injEq, Val.arr.injEq] at h
          obtain ⟨⟨h1, -⟩, -⟩ := h
          subst h1
          exact decodeDynamicElems_length 2097152 (k + 1) 0 34 32 [] "string" c1Bytes
            results cd hd

/-- C1 (code_bug): the round trip fails.  The encoder produces the
correct spec-S5 layout for `string[] = ["a","bc"]` (first conjunct),
but decoding those exact bytes never returns `["a","bc"]` for any
recursion budget — `decodeArray` double-dereferences the head offset,
commits to an array length of 2097152 (see `c1_len_forced`) and returns
garbage.  Moreover strings are not round-tripped byte-exactly:
`decodeString` strips NUL bytes and trims whitespace, so `" a "`
decodes to `"a"` (last three conjuncts), against the claim's
"including leading/trailing whitespace" requirement. -/
theorem c1_roundtrip_fails :
    (Encoder.encodeParameters 10 [] [TypeDesc.str "string[]"] c1Values).1 =
      .ok (bufferToHex c1Bytes)
    ∧ (∀ fuel : Nat, (Decoder.decodeParameters fuel [] [TypeDesc.str "string[]"]
        (bufferToHex c1Bytes)).1 ≠ .ok [Val.arr [Val.str "a", Val.str "bc"]])
    ∧ (Encoder.encodeParameters 10 [] [TypeDesc.str "string"] [JVal.s " a "]).1 =
      .ok (bufferToHex c1TrimBytes)
    ∧ (Decoder.decodeParameters 10 [] [TypeDesc.str "string"]
        (bufferToHex c1TrimBytes)).1 = .ok [Val.str "a"]
    ∧ Val.str "a" ≠ Val.str " a " := by
  refine ⟨by rfl, ?_, by rfl, by rfl, ?_⟩
  · intro fuel h'
    rcases hres : Decoder.decodeParameters fuel [] [TypeDesc.str "string[]"]
      (bufferToHex c1Bytes) with ⟨res, cd⟩
    rw [hres] at h'
    simp only at h'
    subst h'
    have := c1_len_forced fuel [Val.str "a", Val.str "bc"] cd hres
    simp at this
  · intro h
    injection h with h'
    exact absurd h' (by decide)

/-! ## Claim C9 — receipt demultiplexing -/

/-- Every entry emitted by the receipt-log loop comes from a log at its
`logIndex`, with a nonempty topics list whose `topics[0]` is registered
in the codec's event index. -/
theorem decodeReceiptLogsAux_mem :
    ∀ (logs : List Log) (fuel : Nat) (codec : ABICodec) (cache : Decoder.DecCache)
      (i : Nat) (e : DecodedLog),
      e ∈ (decodeReceiptLogsAux fuel codec cache i logs).1 →
      ∃ j, ∃ h : j < logs.length, e.logIndex = i + j
        ∧ (logs.get ⟨j, h⟩).topics ≠ []
        ∧ List.lookup ((logs.get ⟨j, h⟩).topics.getD 0 "") codec.events ≠ none := by
  intro logs
  induction logs with
  | nil => intro fuel codec cache i e h; simp [decodeReceiptLogsAux] at h
  | cons log rest ih =>
    intro fuel codec cache i e hmem
    by_cases hEmpty : log.topics.isEmpty
    · simp only [decodeReceiptLogsAux, hEmpty, if_true] at hmem
      obtain ⟨j, hj, h1, h2, h3⟩ := ih fuel codec cache (i + 1) e hmem
      exact ⟨j + 1, by simpa using hj, by omega, by simpa using h2, by simpa using h3⟩
    · rcases hlk : List.lookup (log.topics.getD 0 "") codec.events with _ | ev
      · simp only [decodeReceiptLogsAux, hEmpty, if_false, hlk] at hmem
        obtain ⟨j, hj, h1, h2, h3⟩ := ih fuel codec cache (i + 1) e hmem
        exact ⟨j + 1, by simpa using hj, by omega, by simpa using h2, by simpa using h3⟩
      · rcases hdl : Decoder.decodeLog fuel cache ev log.data log.topics with ⟨res, c'⟩
        match res, hdl with
        | .error err, hdl =>
          simp only [decodeReceiptLogsAux, hEmpty, if_false, hlk, hdl] at hmem
          obtain ⟨j, hj, h1, h2, h3⟩ := ih fuel codec c' (i + 1) e hmem
          exact ⟨j + 1, by simpa using hj, by omega, by simpa using h2, by simpa using h3⟩
        | .ok (nm, args), hdl =>
          simp only [decodeReceiptLogsAux, hEmpty, if_false, hlk, hdl] at hmem
          rcases haux : decodeReceiptLogsAux fuel codec c' (i + 1) rest with ⟨out, c''⟩
          rw [haux] at hmem
          cases hmem with
          | head =>
            refine ⟨0, by simp, by simp, ?_, ?_⟩
            · show log.topics ≠ []
              simpa [List.isEmpty_iff] using hEmpty
            · show List.lookup (log.topics.getD 0 "") codec.events ≠ none
              intro hc
              rw [hlk] at hc
              cases hc
          | tail b hmem =>
            obtain ⟨j, hj, h1, h2, h3⟩ := ih fuel codec c' (i + 1) e (by rw [haux]; exact hmem)
            exact ⟨j + 1, by simpa using hj, by omega, by simpa using h2, by simpa using h3⟩

/-- The `logIndex` values emitted by the receipt-log loop are strictly
increasing: output order matches input order. -/
theorem decodeReceiptLogsAux_pairwise :
    ∀ (logs : List Log) (fuel : Nat) (codec : ABICodec) (cache : Decoder.DecCache)
      (i : Nat),
      List.Pairwise (· < ·)
        (((decodeReceiptLogsAux fuel codec cache i logs).1).map (·.logIndex)) := by
  intro logs
  induction logs with
  | nil => intro fuel codec cache i; simp [decodeReceiptLogsAux]
  | cons log rest ih =>
    intro fuel codec cache i
    by_cases hEmpty : log.topics.isEmpty
    · simpa only [decodeReceiptLogsAux, hEmpty, if_true] using ih fuel codec cache (i + 1)
    · rcases hlk : List.lookup (log.topics.getD 0 "") codec.events with _ | ev
      · simpa only [decodeReceiptLogsAux, hEmpty, if_false, hlk] using
          ih fuel codec cache (i + 1)
      · rcases hdl : Decoder.decodeLog fuel cache ev log.data log.topics with ⟨res, c'⟩
        match res, hdl with
        | .error err, hdl =>
          simpa only [decodeReceiptLogsAux, hEmpty, if_false, hlk, hdl] using
            ih fuel codec c' (i + 1)
        | .ok (nm, args), hdl =>
          simp only [decodeReceiptLogsAux, hEmpty, if_false, hlk, hdl]
          rcases haux : decodeReceiptLogsAux fuel codec c' (i + 1) rest with ⟨out, c''⟩
          simp only [List.map_cons, List.pairwise_cons]
          constructor
          · intro y hy
            simp only [List.mem_map] at hy
            obtain ⟨e, he, rfl⟩ := hy
            obtain ⟨j, hj, h1, -, -⟩ := decodeReceiptLogsAux_mem rest fuel codec c' (i + 1) e
              (by rw [haux]; exact he)
            simp only [DecodedLog.logIndex] at *
            omega
          · have := ih fuel codec c' (i + 1)
            rw [haux] at this
            exact this

/-- C9 (confirmed): receipt demultiplexing.  (1) The decoded logs come
out in input order (strictly increasing `logIndex`); (2) every decoded
entry stems from a log with topics whose `topics[0]` is registered —
unregistered logs are skipped; (3) a log with an unregistered
`topics[0]` is skipped and the loop continues with the rest unchanged;
(4) a log whose `decodeLog` throws is skipped without aborting the
batch — the loop continues on the remaining logs (with the decoder
cache writes made before the throw retained, as in the source). -/
theorem c9_receipt_demux :
    (∀ (fuel : Nat) (codec : ABICodec) (cache : Decoder.DecCache) (receipt : Receipt),
      List.Pairwise (· < ·)
        (((ABICodec.decodeReceiptLogs codec fuel cache receipt).1).map (·.logIndex)))
    ∧ (∀ (fuel : Nat) (codec : ABICodec) (cache : Decoder.DecCache) (receipt : Receipt)
        (e : DecodedLog), e ∈ (ABICodec.decodeReceiptLogs codec fuel cache receipt).1 →
        ∃ j, ∃ h : j < receipt.logs.length, e.logIndex = j
          ∧ (receipt.logs.get ⟨j, h⟩).topics ≠ []
          ∧ List.lookup ((receipt.logs.get ⟨j, h⟩).topics.getD 0 "") codec.events ≠ none)
    ∧ (∀ (fuel : Nat) (codec : ABICodec) (cache : Decoder.DecCache) (i : Nat)
        (log : Log) (rest : List Log),
        log.topics ≠ [] →
        List.lookup (log.topics.getD 0 "") codec.events = none →
        decodeReceiptLogsAux fuel codec cache i (log :: rest) =
          decodeReceiptLogsAux fuel codec cache (i + 1) rest)
    ∧ (∀ (fuel : Nat) (codec : ABICodec) (cache : Decoder.DecCache) (i : Nat)
        (log : Log) (rest : List Log) (ev : AbiItem) (err : String)
        (c' : Decoder.DecCache),
        log.topics ≠ [] →
        List.lookup (log.topics.getD 0 "") codec.events = some ev →
        Decoder.decodeLog fuel cache ev log.data log.topics = (.error err, c') →
        decodeReceiptLogsAux fuel codec cache i (log :: rest) =
          decodeReceiptLogsAux fuel codec c' (i + 1) rest) := by
  refine ⟨?_, ?_, ?_, ?_⟩
  · intro fuel codec cache receipt
    exact decodeReceiptLogsAux_pairwise receipt.logs fuel codec cache 0
  · intro fuel codec cache receipt e he
    obtain ⟨j, hj, h1, h2, h3⟩ :=
      decodeReceiptLogsAux_mem receipt.logs fuel codec cache 0 e he
    exact ⟨j, hj, by omega, h2, h3⟩
  · intro fuel codec cache i log rest hne hlk
    have hEmpty : log.topics.isEmpty = false := by
      simpa [List.isEmpty_iff] using hne
    simp only [decodeReceiptLogsAux, hEmpty, Bool.false_eq_true, if_false, hlk]
  · intro fuel codec cache i log rest ev err c' hne hlk hdl
    have hEmpty : log.topics.isEmpty = false := by
      simpa [List.isEmpty_iff] using hne
    simp only [decodeReceiptLogsAux, hEmpty, Bool.false_eq_true, if_false, hlk, hdl]

/-! ## Claim C10 — `decodeLog` with missing topics -/

/-- Statement vocabulary for C10: drop the indexed inputs whose topic
slot `i + 1` lies beyond the given number of topics, keeping all
non-indexed inputs (`i` counts indexed inputs seen so far). -/
def truncIndexedAux (numTopics : Nat) : List Param → Nat → List Param
  | [], _ => []
  | p :: rest, i =>
    if p.indexed then
      (if i + 1 < numTopics then [p] else []) ++ truncIndexedAux numTopics rest (i + 1)
    else p :: truncIndexedAux numTopics rest i

/-- The event with exactly the indexed parameters that have a topic. -/
def truncateIndexedInputs (ev : AbiItem) (numTopics : Nat) : AbiItem :=
  ⟨ev.itemType, ev.name, truncIndexedAux numTopics ev.inputs 0, ev.outputs, ev.anonymous⟩

theorem truncIndexedAux_filter_indexed (n : Nat) :
    ∀ (inputs : List Param) (i : Nat),
      (truncIndexedAux n inputs i).filter (·.indexed) =
        ((inputs.filter (·.indexed)).take (n - 1 - i)) := by
  intro inputs
  induction inputs with
  | nil => intro i; simp [truncIndexedAux]
  | cons p rest ih =>
    intro i
    by_cases hp : p.indexed
    · by_cases hi : i + 1 < n
      · have harith : n - 1 - i = (n - 1 - (i + 1)) + 1 := by omega
        simp only [truncIndexedAux, hp, if_true, hi, List.singleton_append,
          List.filter_cons, harith, List.take_succ_cons]
        simp [hp, ih (i + 1)]
      · have harith : n - 1 - i = 0 := by omega
        have harith2 : n - 1 - (i + 1) = 0 := by omega
        simp only [truncIndexedAux, hp, if_true, hi, if_false, List.nil_append,
          List.filter_cons, harith, List.take_zero]
        rw [ih (i + 1), harith2, List.take_zero]
    · simp only [truncIndexedAux, hp, if_false, List.filter_cons]
      simp [hp, ih i]

theorem truncIndexedAux_filter_nonindexed (n : Nat) :
    ∀ (inputs : List Param) (i : Nat),
      (truncIndexedAux n inputs i).filter (fun p => !p.indexed) =
        inputs.filter (fun p => !p.indexed) := by
  intro inputs
  induction inputs with
  | nil => intro i; simp [truncIndexedAux]
  | cons p rest ih =>
    intro i
    by_cases hp : p.indexed
    · by_cases hi : i + 1 < n
      · simp only [truncIndexedAux, hp, if_true, hi, List.singleton_append,
          List.filter_cons, Bool.not_true, if_false]
        exact ih (i + 1)
      · simp only [truncIndexedAux, hp, if_true, hi, if_false, List.nil_append,
          List.filter_cons, Bool.not_true]
        exact ih (i + 1)
    · have hp' : p.indexed = false := by simpa using hp
      simp only [truncIndexedAux, hp', Bool.false_eq_true, if_false, List.filter_cons,
        Bool.not_false, if_true]
      rw [ih i]

/-- When no topics remain (`topics.length ≤ i + 1`), the indexed loop
skips every remaining parameter: no error, no args, no cache change. -/
theorem decodeLogTopics_oob (topics : List String) :
    ∀ (params : List Param) (fuel : Nat) (cache : Decoder.DecCache) (i : Nat)
      (args : List (String × Val)), topics.length ≤ i + 1 →
      Decoder.decodeLogTopics fuel cache params i topics args = (.ok args, cache) := by
  intro params
  induction params with
  | nil => intro fuel cache i args _; rfl
  | cons p rest ih =>
    intro fuel cache i args hlen
    have ht : topics.getD (i + 1) "" = "" := List.getD_eq_default _ _ hlen
    simp only [Decoder.decodeLogTopics, ht, if_pos rfl]
    exact ih fuel cache (i + 1) args (by omega)

/-- The indexed loop behaves as if the parameter list were truncated to
those with a topic slot in range. -/
theorem decodeLogTopics_take (topics : List String) :
    ∀ (params : List Param) (fuel : Nat) (cache : Decoder.DecCache) (i : Nat)
      (args : List (String × Val)),
      Decoder.decodeLogTopics fuel cache params i topics args =
        Decoder.decodeLogTopics fuel cache (params.take (topics.length - 1 - i)) i
          topics args := by
  intro params
  induction params with
  | nil => intro fuel cache i args; simp
  | cons p rest ih =>
    intro fuel cache i args
    by_cases hio : topics.length ≤ i + 1
    · have h0 : topics.length - 1 - i = 0 := by omega
      rw [h0, List.take_zero]
      rw [decodeLogTopics_oob topics (p :: rest) fuel cache i args hio]
      rfl
    · have hsucc : topics.length - 1 - i = (topics.length - 1 - (i + 1)) + 1 := by omega
      rw [hsucc, List.take_succ_cons]
      by_cases ht : topics.getD (i + 1) "" = ""
      · simp only [Decoder.decodeLogTopics, ht, if_pos rfl]
        exact ih fuel cache (i + 1) args
      · simp only [Decoder.decodeLogTopics, ht, if_neg ht]
        by_cases hd : Decoder.isDynamicType fuel (TypeDesc.str p.type) = true
        · simp only [hd, if_true]
          exact ih fuel cache (i + 1) _
        · simp only [hd, Bool.false_eq_true, if_false]
          rcases hhex : hexToBuffer (topics.getD (i + 1) "") with e | topicBuffer
          · rfl
          · rcases hdp : Decoder.decodeParameter fuel cache (TypeDesc.str p.type)
              topicBuffer 0 with ⟨res, c'⟩
            simp only [hdp]
            match res with
            | .error e => rfl
            | .ok (v, n) => exact ih fuel c' (i + 1) _

/-- C10 (confirmed): `decodeLog` with fewer topics than indexed
parameters equals `decodeLog` on the event whose out-of-range indexed
parameters are removed — for every fuel, cache, event, data and topics.
Missing topics raise no error; their field names are simply absent from
`args`; all remaining parameters (and all non-indexed parameters) are
decoded exactly as usual. -/
theorem c10_decodeLog_missing_topics :
    ∀ (fuel : Nat) (cache : Decoder.DecCache) (eventAbi : AbiItem) (data : String)
      (topics : List String),
      Decoder.decodeLog fuel cache eventAbi data topics =
        Decoder.decodeLog fuel cache (truncateIndexedInputs eventAbi topics.length)
          data topics := by
  intro fuel cache eventAbi data topics
  simp only [Decoder.decodeLog, truncateIndexedInputs]
  rw [truncIndexedAux_filter_indexed topics.length eventAbi.inputs 0,
    truncIndexedAux_filter_nonindexed topics.length eventAbi.inputs 0]
  rw [← decodeLogTopics_take topics (eventAbi.inputs.filter (·.indexed)) fuel cache 0 []]

end AbiToolkit
